import Mathlib

/-!
# TRON gesture controller: direction log, classifier, gesture detector, maze

A shallow embedding of the direction log of `src/game.c` (`dir`, `dir_list`,
`index`, `empty_all`, `send_message`, `reverse_direction`), of the direction
classifier `determine_direction`, of the gesture detector in `sensorTask` and
`ignore_clkFxn` of `src/main.c`, and of the maze (`draw_labyrinth`,
`handle_labyrinth`), followed by the properties established about them.

Conventions of the embedding.

* `uint8_t` values are natural numbers; an increment is taken modulo 256.
* `int8_t` values are integers; a conversion to `int8_t` wraps into
  `[-128, 127]`.
* `dir_list` is a list whose length is the size of the C array (100 in a
  well-formed state).  An access outside the array is undefined behaviour in
  C; the embedding makes it explicit: the operation returns `none`.
* `memset(dir_list, 0, sizeof(dir_list))` stores the value 0 in every entry.
  The enumerator with value 0 is `DOWN`.
* The radio transmission performed by `send_message` is not part of the
  state and is left out, and so is the drawing on the display.
* Accelerations and angles are rational numbers (every finite floating-point
  value is one; infinities and NaN are not covered).  Comparisons are exact.
  The library functions `atan2` and `sqrt` are parameters.  `is_float` is a
  property that every finite value of type `float` has; it is assumed of the
  variable `angle` where a result depends on it.
* In `handle_labyrinth` the `float` sums `ball_x + ax` and `ball_y + ay` and the
  conversion of a `float` to `int` in the call of `abs` are parameters as well
  (`FloatOps`): the sum is only known to be exact where the exact result is a
  `float`, and the conversion is only known to truncate toward zero where the
  argument is in the range of `int`.  Elsewhere arithmetic is exact.
* The values returned by `rand()` are a list of natural numbers; an operation
  that needs more draws than the list holds returns `none`.
* The accesses to `z_data` and `blocks` are within bounds in every state the
  program reaches (`z_index` is reduced modulo 10, cell indices are below 6);
  they are embedded as total list operations.
-/

namespace Tron

/-- The enumeration
`enum direction {DOWN=0, DOWNRIGHT, RIGHT, UPRIGHT, UP, UPLEFT, LEFT, DOWNLEFT, NONE}`. -/
inductive direction
  | DOWN | DOWNRIGHT | RIGHT | UPRIGHT | UP | UPLEFT | LEFT | DOWNLEFT | NONE
  deriving DecidableEq, Repr

open direction

/-- The integer value of an enumerator. -/
def direction.toNat : direction → Nat
  | DOWN => 0
  | DOWNRIGHT => 1
  | RIGHT => 2
  | UPRIGHT => 3
  | UP => 4
  | UPLEFT => 5
  | LEFT => 6
  | DOWNLEFT => 7
  | NONE => 8

/-- The globals of the direction log: `dir`, `dir_list[100]` and `index`. -/
structure State where
  dir : direction
  dir_list : List direction
  index : Nat
  deriving DecidableEq, Repr

/-- The declared size of `dir_list`. -/
def capacity : Nat := 100

/-- A state is well formed when the array has its declared size and `index`
fits its type `uint8_t`. -/
def State.wf (s : State) : Prop :=
  s.dir_list.length = capacity ∧ s.index < 256

instance (s : State) : Decidable s.wf := by
  unfold State.wf; exact inferInstance

/-- Conversion of an integer to `int8_t`. -/
def int8 (n : Int) : Int := (n + 128) % 256 - 128

/-- Conversion of an integer to `uint8_t`, as a natural number. -/
def uint8 (n : Int) : Nat := (n % 256).toNat

/-- The read `dir_list[i]`; `none` when `i` is outside the array. -/
def rd (l : List direction) (i : Int) : Option direction :=
  if 0 ≤ i then l[i.toNat]? else none

/-- The write `dir_list[i] = d`; `none` when `i` is outside the array. -/
def wr (l : List direction) (i : Nat) (d : direction) : Option (List direction) :=
  if i < l.length then some (l.set i d) else none

/-- The effect of `memset(dir_list, 0, sizeof(dir_list))`: every one of the 100
entries holds the value 0, which is the enumerator `DOWN`. -/
def memset_zero : List direction := List.replicate capacity DOWN

/-- The function `empty_all`. -/
def empty_all (_s : State) : State :=
  { dir := NONE, dir_list := memset_zero, index := 0 }

/-- The function `clear_direction`. -/
def clear_direction (s : State) : State := { s with dir := NONE }

/-- The loop `for (i = n - 1; i >= 0; i--) if (dir_list[i] != NONE) break;`
started at a non-negative index `n - 1`: the final value of `i`. -/
def scan_back (l : List direction) : Nat → Option Int
  | 0 => some (-1)
  | n + 1 =>
    match l[n]? with
    | none => none
    | some d => if d ≠ NONE then some (n : Int) else scan_back l n

/-- The loop `for (i = start; i >= 0; i--) if (dir_list[i] != NONE) break;`:
the final value of `i`.  With a negative start the body never runs. -/
def scan_loop (l : List direction) (start : Int) : Option Int :=
  if start < 0 then some start else scan_back l (start.toNat + 1)

/-- The function `reverse_direction`: the returned value and the new state. -/
def reverse_direction (s : State) : Option (Nat × State) :=
  if s.index ≤ 0 then
    some (1, { dir := NONE, dir_list := memset_zero, index := 0 })
  else do
    let i ← scan_loop s.dir_list (int8 ((s.index : Int) - 1))
    let j0 ← scan_loop s.dir_list (int8 (i - 1))
    let j : Int := if j0 < 0 then 0 else j0
    let last ← rd s.dir_list i
    match last with
    | UP => do
      let prior ← rd s.dir_list j
      if prior = RIGHT then some (0, { s with dir := DOWNLEFT, index := uint8 j })
      else if prior = LEFT then some (0, { s with dir := DOWNRIGHT, index := uint8 j })
      else some (0, { s with dir := DOWN, index := uint8 i })
    | RIGHT => do
      let prior ← rd s.dir_list j
      if prior = UP then some (0, { s with dir := DOWNLEFT, index := uint8 j })
      else if prior = DOWN then some (0, { s with dir := UPLEFT, index := uint8 j })
      else some (0, { s with dir := LEFT, index := uint8 i })
    | LEFT => do
      let prior ← rd s.dir_list j
      if prior = UP then some (0, { s with dir := DOWNRIGHT, index := uint8 j })
      else if prior = DOWN then some (0, { s with dir := UPRIGHT, index := uint8 j })
      else some (0, { s with dir := RIGHT, index := uint8 i })
    | DOWN => do
      let prior ← rd s.dir_list j
      if prior = RIGHT then some (0, { s with dir := UPLEFT, index := uint8 j })
      else if prior = LEFT then some (0, { s with dir := UPRIGHT, index := uint8 j })
      else some (0, { s with dir := UP, index := uint8 i })
    | _ => some (0, s)

/-- The statement `if (win == 0) dir_list[index] = d;`. -/
def store (win : Nat) (d : direction) (s : State) : Option State :=
  if win = 0 then (wr s.dir_list s.index d).map (fun l => { s with dir_list := l })
  else some s

/-- The statement `if (win == 0) index++;` on the `uint8_t` index. -/
def bump (win : Nat) (s : State) : State :=
  if win = 0 then { s with index := (s.index + 1) % 256 } else s

/-- The function `send_message`, restricted to its effect on the log. -/
def send_message (win : Nat) (s : State) : Option State := do
  let s1 ← match s.dir with
    | RIGHT => store win RIGHT s
    | LEFT => store win LEFT s
    | UP => store win UP s
    | DOWN => store win DOWN s
    | UPRIGHT => do
      let a ← store win UP s
      store win RIGHT (bump win a)
    | UPLEFT => do
      let a ← store win UP s
      store win LEFT (bump win a)
    | DOWNLEFT => do
      let a ← store win DOWN s
      store win LEFT (bump win a)
    | DOWNRIGHT => do
      let a ← store win DOWN s
      store win RIGHT (bump win a)
    | NONE => some s
  some (bump win s1)

/-- Committing a direction in play mode: the detector sets `dir`, then the UI
task calls `send_message(0)`. -/
def append (d : direction) (s : State) : Option State :=
  send_message 0 { s with dir := d }

/-- The constant `#define PI 3.14159265`. -/
def PI : ℚ := 314159265 / 100000000

/-- The chain of comparisons of `determine_direction` on the computed angle. -/
def classify_angle (angle : ℚ) : direction :=
  if angle < PI / 8 ∧ angle > -PI / 8 then RIGHT
  else if angle > PI / 8 ∧ angle < 3 * PI / 8 then UPRIGHT
  else if angle ≥ 3 * PI / 8 ∧ angle < 5 * PI / 8 then UP
  else if angle ≥ 5 * PI / 8 ∧ angle < 7 * PI / 8 then UPLEFT
  else if angle ≤ -PI / 8 ∧ angle > -3 * PI / 8 then DOWNRIGHT
  else if angle ≤ -3 * PI / 8 ∧ angle > -5 * PI / 8 then DOWN
  else if angle ≤ -5 * PI / 8 ∧ angle > -7 * PI / 8 then DOWNLEFT
  else LEFT

/-- The function `determine_direction`; `atan2` is the library function. -/
def determine_direction (atan2 : ℚ → ℚ → ℚ) (ax ay : ℚ) (s : State) : State :=
  { s with dir := classify_angle (atan2 ay (-ax)) }

/-- A necessary condition for a rational to be a finite value of the type
`float` (binary32), the type of `angle` in `determine_direction`: such a value is
an integer multiple of `2 ^ (-149)`, so its denominator divides `2 ^ 149`. -/
def is_float (q : ℚ) : Prop := q.den ∣ 2 ^ 149

instance (q : ℚ) : Decidable (is_float q) := by
  delta is_float; exact inferInstance

/-- The four directions that `send_message` stores in the log. -/
def orthogonal (d : direction) : Prop :=
  d = UP ∨ d = DOWN ∨ d = LEFT ∨ d = RIGHT

instance (d : direction) : Decidable (orthogonal d) := by
  unfold orthogonal; exact inferInstance

/-- The four diagonal directions. -/
def diagonal (d : direction) : Prop :=
  d = UPRIGHT ∨ d = UPLEFT ∨ d = DOWNLEFT ∨ d = DOWNRIGHT

instance (d : direction) : Decidable (diagonal d) := by
  unfold diagonal; exact inferInstance

/-- The combination table of the specification (section 4.3): for the last
move and the prior move, the replayed direction and whether a merge applies. -/
def reverse_table : direction → direction → direction × Bool
  | UP, RIGHT => (DOWNLEFT, true)
  | UP, LEFT => (DOWNRIGHT, true)
  | UP, _ => (DOWN, false)
  | DOWN, RIGHT => (UPLEFT, true)
  | DOWN, LEFT => (UPRIGHT, true)
  | DOWN, _ => (UP, false)
  | RIGHT, UP => (DOWNLEFT, true)
  | RIGHT, DOWN => (UPLEFT, true)
  | RIGHT, _ => (LEFT, false)
  | LEFT, UP => (DOWNRIGHT, true)
  | LEFT, DOWN => (UPRIGHT, true)
  | LEFT, _ => (RIGHT, false)
  | d, _ => (d, false)

/-- The state of the log at program start and after `empty_all`. -/
def reset_state : State := empty_all { dir := NONE, dir_list := [], index := 0 }

/-- The vertical component (`UP` or `DOWN`) of a diagonal direction. -/
def vertical : direction → direction
  | UPRIGHT => UP
  | UPLEFT => UP
  | DOWNLEFT => DOWN
  | DOWNRIGHT => DOWN
  | d => d

/-- The horizontal component (`LEFT` or `RIGHT`) of a diagonal direction. -/
def horizontal : direction → direction
  | UPRIGHT => RIGHT
  | UPLEFT => LEFT
  | DOWNLEFT => LEFT
  | DOWNRIGHT => RIGHT
  | d => d

/-- The entry at index `k` exists and is one of the four orthogonal moves. -/
def entry_orthogonal (l : List direction) (k : Nat) : Prop :=
  match l[k]? with
  | some d => orthogonal d
  | none => False

instance (l : List direction) (k : Nat) : Decidable (entry_orthogonal l k) := by
  unfold entry_orthogonal; split <;> exact inferInstance

/-- Every entry below the cursor is an orthogonal move. -/
def log_orthogonal (s : State) : Prop :=
  ∀ k, k < s.index → entry_orthogonal s.dir_list k

instance (s : State) : Decidable (log_orthogonal s) := by
  unfold log_orthogonal; exact inferInstance

/-- Index `i` is the highest index below `cursor` holding a non-`NONE` entry. -/
def is_last (l : List direction) (cursor i : Nat) : Prop :=
  i < cursor ∧ (∃ d, l[i]? = some d ∧ d ≠ NONE) ∧
    ∀ k, i < k → k < cursor → l[k]? = some NONE

/-- Index `j` is the next index below `i` holding a non-`NONE` entry, and
`j = 0` when there is none. -/
def is_prior (l : List direction) (i j : Nat) : Prop :=
  (j < i ∧ (∃ d, l[j]? = some d ∧ d ≠ NONE) ∧ ∀ k, j < k → k < i → l[k]? = some NONE)
    ∨ (j = 0 ∧ ∀ k, k < i → l[k]? = some NONE)

/-! ## The gesture detector of `sensorTask` (`src/main.c`) -/

/-- The function `variance` of `src/game.c` on the first `size` entries of
`data`, in exact arithmetic. -/
def variance (data : List ℚ) (size : Nat) : ℚ :=
  if size = 0 then 0
  else
    let mean := (data.take size).sum / size
    ((data.take size).map (fun x => (x - mean) ^ 2)).sum / size

/-- The globals and locals of `sensorTask` that the gesture detector uses:
`ignore` (the armed flag), `init_ax`, `init_ay`, `z_data[10]`, `z_index`, the
flags `update` and `send`, the counter `moves`, and the globals of `game.c`. -/
structure Detector where
  ignore : Nat
  init_ax : ℚ
  init_ay : ℚ
  z_data : List ℚ
  z_index : Nat
  update : Nat
  send : Nat
  moves : Nat
  game : State

/-- One accelerometer sample `(ax, ay, az)`, already converted to m/s^2. -/
structure Sample where
  ax : ℚ
  ay : ℚ
  az : ℚ

/-- The effect of `memset(z_data, 0, sizeof(z_data))`. -/
def z_zero : List ℚ := List.replicate 10 0

/-- The value `magnitude = sqrt(pow(ax, 2) + pow(ay, 2))`; `sqrt` is the library
function. -/
def magnitude (sqrt : ℚ → ℚ) (x : Sample) : ℚ := sqrt (x.ax ^ 2 + x.ay ^ 2)

/-- The arming statement of `sensorTask`:
`if (magnitude > 8.0 && az < -6.0 && !ignore) { init_ax = ax; init_ay = ay; ignore = 1; ... }`.
The call `Clock_start(ignore_clkHandle)` schedules `ignore_clkFxn`. -/
def arm (sqrt : ℚ → ℚ) (x : Sample) (d : Detector) : Detector :=
  if magnitude sqrt x > 8 ∧ x.az < -6 ∧ d.ignore = 0 then
    { d with init_ax := x.ax, init_ay := x.ay, ignore := 1 }
  else d

/-- The buffer statement of `sensorTask`:
`if (ignore) { z_data[z_index] = az; z_index = (z_index + 1) % 10; }`. -/
def push (x : Sample) (d : Detector) : Detector :=
  if d.ignore ≠ 0 then
    { d with z_data := d.z_data.set d.z_index x.az, z_index := (d.z_index + 1) % 10 }
  else d

/-- The sign test of the confirmation:
`(ax > 0 && init_ax < 0) || (ax < 0 && init_ax > 0) || (ay > 0 && init_ay < 0) || (ay < 0 && init_ay > 0)`. -/
def sign_flip (x : Sample) (d : Detector) : Prop :=
  (x.ax > 0 ∧ d.init_ax < 0) ∨ (x.ax < 0 ∧ d.init_ax > 0) ∨
    (x.ay > 0 ∧ d.init_ay < 0) ∨ (x.ay < 0 ∧ d.init_ay > 0)

instance (x : Sample) (d : Detector) : Decidable (sign_flip x d) := by
  unfold sign_flip; exact inferInstance

/-- The confirmation statement of `sensorTask`, with
`var = variance(z_data, z_index)`:
`if (var < 50 && ignore && magnitude > 8.0 && (...)) { z_index = 0; memset(z_data, ...);
determine_direction(init_ax, init_ay); update = 1; send = 1; moves++; }`. -/
def confirm (atan2 : ℚ → ℚ → ℚ) (sqrt : ℚ → ℚ) (x : Sample) (d : Detector) : Detector :=
  if variance d.z_data d.z_index < 50 ∧ d.ignore ≠ 0 ∧ magnitude sqrt x > 8 ∧ sign_flip x d then
    { d with
      z_index := 0
      z_data := z_zero
      game := determine_direction atan2 d.init_ax d.init_ay d.game
      update := 1
      send := 1
      moves := (d.moves + 1) % 256 }
  else d

/-- The body of `sensorTask` in state `READ` for one sample: arming, buffer
push, confirmation. -/
def sensor_step (atan2 : ℚ → ℚ → ℚ) (sqrt : ℚ → ℚ) (x : Sample) (d : Detector) : Detector :=
  confirm atan2 sqrt x (push x (arm sqrt x d))

/-- The clock function `ignore_clkFxn`, run when the one-second clock started at
arming expires. -/
def ignore_clkFxn (d : Detector) : Detector :=
  { d with ignore := 0, z_index := 0, z_data := z_zero }

/-- The detector states after each sample of a sequence, in order. -/
def sensor_trace (atan2 : ℚ → ℚ → ℚ) (sqrt : ℚ → ℚ) : Detector → List Sample → List Detector
  | _, [] => []
  | d, x :: xs => sensor_step atan2 sqrt x d :: sensor_trace atan2 sqrt (sensor_step atan2 sqrt x d) xs

/-- The value `var` computed while processing sample `x` from state `d`: the
variance read after the arming and buffer statements. -/
def sample_var (sqrt : ℚ → ℚ) (x : Sample) (d : Detector) : ℚ :=
  variance (push x (arm sqrt x d)).z_data (push x (arm sqrt x d)).z_index

/-- Every sample of the sequence has `magnitude <= 8.0`. -/
def all_weak (sqrt : ℚ → ℚ) (xs : List Sample) : Prop :=
  ∀ x ∈ xs, magnitude sqrt x ≤ 8

/-- The computed `var` is at least 50 at every sample of the sequence run from
state `d`. -/
def all_var_high (atan2 : ℚ → ℚ → ℚ) (sqrt : ℚ → ℚ) : Detector → List Sample → Prop
  | _, [] => True
  | d, x :: xs => 50 ≤ sample_var sqrt x d ∧ all_var_high atan2 sqrt (sensor_step atan2 sqrt x d) xs

/-! ## The maze of `src/game.c` -/

/-- The globals of the maze: `ball_x`, `ball_y`, `end_i`, `end_j`, `clear` and
`blocks[6][6]`, the latter in row-major order (`blocks[i][j]` at `6 * i + j`). -/
structure Maze where
  ball_x : Nat
  ball_y : Nat
  end_i : Nat
  end_j : Nat
  clear : Nat
  blocks : List Nat
  deriving DecidableEq, Repr

/-- The read `blocks[i][j]`, for `i, j < 6`. -/
def blk (b : List Nat) (i j : Nat) : Nat := b.getD (6 * i + j) 0

/-- The write `blocks[i][j] = v`, for `i, j < 6`. -/
def set_blk (b : List Nat) (i j : Nat) (v : Nat) : List Nat := b.set (6 * i + j) v

/-- The initialisation loops of `draw_labyrinth`: `blocks[i][j] = 1` for
`i == 0 && j == 2`, and 0 otherwise. -/
def init_blocks : List Nat :=
  (List.range 36).map (fun k => if k / 6 = 0 ∧ k % 6 = 2 then 1 else 0)

/-- The `switch (rand_dir)` of `draw_labyrinth` with `rand_dir = rand() % 3`: the
candidate `(i_temp, j_temp)` for the draw `r = rand()`. -/
def candidate (i j : Nat) (r : Nat) : Int × Int :=
  match r % 3 with
  | 0 => ((i : Int), (j : Int) + 1)
  | 1 => ((i : Int) + 1, (j : Int))
  | _ => ((i : Int), (j : Int) - 1)

/-- The loop condition `i_temp < 0 || i_temp > 5 || j_temp < 0 || j_temp > 5`. -/
def out_of_bounds (c : Int × Int) : Bool :=
  decide (c.1 < 0 ∨ c.1 > 5 ∨ c.2 < 0 ∨ c.2 > 5)

/-- The re-sampling loop `while (out of bounds) { rand_dir = rand() % 3; switch ... }`
on the remaining draws of `rand()`: the accepted candidate and the draws left,
or `none` when the draws are used up before a candidate is in bounds. -/
def resample (i j : Nat) (c : Int × Int) : List Nat → Option ((Int × Int) × List Nat)
  | [] => if out_of_bounds c then none else some (c, [])
  | r :: rs =>
    if out_of_bounds c then resample i j (candidate i j r) rs else some (c, r :: rs)

/-- The loop `while (count < 30) { ... count++; }` of `draw_labyrinth`, with `n`
iterations left, from the cell `(i, j)`; `none` when the draws are used up. -/
def walk : Nat → Nat → Nat → Maze → List Nat → Option Maze
  | 0, _, _, m, _ => some m
  | n + 1, i, j, m, rs =>
    match rs with
    | [] => none
    | r :: rs1 =>
      match resample i j (candidate i j r) rs1 with
      | none => none
      | some (c, rs2) =>
        walk n c.1.toNat c.2.toNat
          { m with
            blocks := set_blk m.blocks c.1.toNat c.2.toNat 1
            end_i := c.1.toNat
            end_j := c.2.toNat } rs2

/-- The generation part of `draw_labyrinth` on the draws `rs` of `rand()`: when
`clear` is set, initialise the grid, walk 30 moves from `(0, 2)` and reset
`clear`.  The drawing on the display is left out. -/
def draw_labyrinth (rs : List Nat) (m : Maze) : Option Maze :=
  if m.clear ≠ 0 then
    (walk 30 0 2 { m with blocks := init_blocks } rs).map (fun m1 => { m1 with clear := 0 })
  else some m

/-- Conversion of a floating-point value to an integer type: truncation toward
zero. -/
def trunc (q : ℚ) : Int := if 0 ≤ q then ⌊q⌋ else ⌈q⌉

/-- The two floating-point operations of `handle_labyrinth` whose results the
embedding does not compute.

* `fadd x a` is the value of the `float` sum `ball_x + ax` (the coordinate is
  converted to `float` and the sum is rounded to `float`); the source computes
  it for the two bound tests and for the assignment.
  A sum is rounded only when the exact result is not a `float`: an exact
  result that is a multiple of `2 ^ (-10)` of absolute value at most `2 ^ 13`
  has at most 24 significant bits and is returned as it is (`fadd_exact`).
* `iabs a` is the value of the call `abs(a)` with a `float` argument: `abs` of
  `<stdlib.h>` takes an `int`, so the argument is converted to `int` first.
  Where the argument is in the range of `int` the conversion truncates toward
  zero (`iabs_spec`); outside that range the conversion is undefined in C and
  nothing is fixed about the result. -/
structure FloatOps where
  fadd : ℚ → ℚ → ℚ
  iabs : ℚ → Int
  fadd_exact : ∀ x a : ℚ, (∃ k : Int, x + a = (k : ℚ) / 2 ^ 10) → |x + a| ≤ 2 ^ 13 →
    fadd x a = x + a
  iabs_spec : ∀ a : ℚ, |a| < 2 ^ 31 → iabs a = |trunc a|

/-- A stand-in for the floating-point operations in which no sum is rounded and
every conversion truncates.  It agrees with the operations of the target
wherever the exact sum is a value of type `float` and the argument of `abs` is
in the range of `int`. -/
def exact_ops : FloatOps :=
  { fadd := fun x a => x + a
    iabs := fun a => |trunc a|
    fadd_exact := fun _ _ _ _ => rfl
    iabs_spec := fun _ _ => rfl }

/-- The movement statements of `handle_labyrinth`.  The assignment
`ball_x = ball_x + ax` converts the sum, which the bound tests have placed
strictly between 0 and 96, to `uint8_t`. -/
def move_ball (F : FloatOps) (ax ay : ℚ) (m : Maze) : Maze :=
  if ((F.iabs ax : Int) : ℚ) > 1 / 2 ∨ ((F.iabs ay : Int) : ℚ) > 1 / 2 then
    let m1 :=
      if F.fadd (m.ball_x : ℚ) ax > 0 ∧ F.fadd (m.ball_x : ℚ) ax < 96 then
        { m with ball_x := uint8 (trunc (F.fadd (m.ball_x : ℚ) ax)) }
      else m
    if F.fadd (m1.ball_y : ℚ) ay > 0 ∧ F.fadd (m1.ball_y : ℚ) ay < 96 then
      { m1 with ball_y := uint8 (trunc (F.fadd (m1.ball_y : ℚ) ay)) }
    else m1
  else m

/-- The containment test of `handle_labyrinth` for the cell `(i, j)`:
`x < 16 * (i + 1) && x > 16 * i && y < 96 - 16 * j && y > 96 - 16 * (j + 1)`. -/
def inside (x y i j : Nat) : Bool :=
  decide ((x : Int) < 16 * ((i : Int) + 1) ∧ (x : Int) > 16 * (i : Int) ∧
    (y : Int) < 96 - 16 * (j : Int) ∧ (y : Int) > 96 - 16 * ((j : Int) + 1))

/-- The cells in the order of the nested loops `for (i ...) for (j ...)`. -/
def cells : List (Nat × Nat) :=
  (List.range 6).flatMap (fun i => (List.range 6).map (fun j => (i, j)))

/-- The condition under which the nested loops of `handle_labyrinth` return 0:
some cell has `blocks[i][j] == 0 && !clear` and contains the ball. -/
def wall_hit (m : Maze) : Bool :=
  cells.any (fun c => decide (blk m.blocks c.1 c.2 = 0 ∧ m.clear = 0) &&
    inside m.ball_x m.ball_y c.1 c.2)

/-- The function `handle_labyrinth`: the returned value and the new state. -/
def handle_labyrinth (F : FloatOps) (ax ay : ℚ) (m : Maze) : Nat × Maze :=
  let m1 := move_ball F ax ay m
  if wall_hit m1 then (0, { m1 with ball_x := 8, ball_y := 56, clear := 1 })
  else if inside m1.ball_x m1.ball_y m1.end_i m1.end_j then
    (1, { m1 with ball_x := 8, ball_y := 56, clear := 1 })
  else (2, m1)

/-- The maze globals at program start. -/
def maze_start : Maze :=
  { ball_x := 8, ball_y := 56, end_i := 0, end_j := 0, clear := 1,
    blocks := List.replicate 36 0 }

/-- Cell `q` is the up, right or down neighbour of cell `p`. -/
def walk_move (p q : Nat × Nat) : Prop :=
  q = (p.1, p.2 + 1) ∨ q = (p.1 + 1, p.2) ∨ (q.1 = p.1 ∧ q.2 + 1 = p.2)

/-- Cells `p` and `q` share a side. -/
def adjacent4 (p q : Nat × Nat) : Prop :=
  (p.1 = q.1 ∧ (p.2 + 1 = q.2 ∨ q.2 + 1 = p.2)) ∨
    (p.2 = q.2 ∧ (p.1 + 1 = q.1 ∨ q.1 + 1 = p.1))

instance (p q : Nat × Nat) : Decidable (adjacent4 p q) := by
  delta adjacent4; exact inferInstance

/-- Cell `p` of the 6x6 grid is accessible: `blocks[i][j]` is not 0. -/
def accessible (m : Maze) (p : Nat × Nat) : Prop :=
  p.1 < 6 ∧ p.2 < 6 ∧ blk m.blocks p.1 p.2 ≠ 0

instance (m : Maze) (p : Nat × Nat) : Decidable (accessible m p) := by
  delta accessible; exact inferInstance

/-- The list `path` is a chain of side-sharing accessible cells from `a` to `b`. -/
def is_path (m : Maze) (a b : Nat × Nat) (path : List (Nat × Nat)) : Prop :=
  path.head? = some a ∧ path.getLast? = some b ∧ List.Chain' adjacent4 path ∧
    ∀ p ∈ path, accessible m p

/-- The number of accessible cells of the grid. -/
def accessible_count (m : Maze) : Nat := m.blocks.countP (fun v => decide (v ≠ 0))

/-! ## Notions used for the later properties -/

/-- The unit grid vector of a direction: UP = (0, 1), DOWN = (0, -1),
RIGHT = (1, 0), LEFT = (-1, 0), a diagonal the sum of its two components. -/
def vec : direction → Int × Int
  | UP => (0, 1)
  | DOWN => (0, -1)
  | RIGHT => (1, 0)
  | LEFT => (-1, 0)
  | UPRIGHT => (1, 1)
  | UPLEFT => (-1, 1)
  | DOWNRIGHT => (1, -1)
  | DOWNLEFT => (-1, -1)
  | NONE => (0, 0)

/-- The sum of the grid vectors of a list of directions. -/
def vec_sum : List direction → Int × Int
  | [] => (0, 0)
  | d :: ds => ((vec d).1 + (vec_sum ds).1, (vec d).2 + (vec_sum ds).2)

/-- The replay of state `REVERSE`: `timer_clkFxn` calls `reverse_direction` once
per tick until it returns 1 (the `send_message(1)` in between does not touch
the log).  With at most `fuel` calls: the directions replayed before the call
that returns 1; `none` on an access outside the array or when the calls are
used up. -/
def drain : Nat → State → Option (List direction)
  | 0, _ => none
  | fuel + 1, s =>
    match reverse_direction s with
    | none => none
    | some (r, s1) => if r = 1 then some [] else (drain fuel s1).map (fun ds => s1.dir :: ds)

/-- The detector states the program reaches: from a disarmed detector with a
zeroed buffer, by samples processed by `sensorTask`, by runs of
`ignore_clkFxn`, and by the other tasks, which write only `update`, `send`,
`moves` and the globals of `game.c`. -/
inductive Reachable (atan2 : ℚ → ℚ → ℚ) (sqrt : ℚ → ℚ) : Detector → Prop
  | start (d : Detector) (hi : d.ignore = 0) (hz : d.z_index = 0) (hd : d.z_data = z_zero) :
      Reachable atan2 sqrt d
  | sample (d : Detector) (x : Sample) (h : Reachable atan2 sqrt d) :
      Reachable atan2 sqrt (sensor_step atan2 sqrt x d)
  | timeout (d : Detector) (h : Reachable atan2 sqrt d) :
      Reachable atan2 sqrt (ignore_clkFxn d)
  | other (d : Detector) (u s mv : Nat) (g : State) (h : Reachable atan2 sqrt d) :
      Reachable atan2 sqrt { d with update := u, send := s, moves := mv, game := g }

theorem int8_of_small (n : Int) (h0 : -128 ≤ n) (h1 : n ≤ 127) : int8 n = n := by
  unfold int8; omega

theorem uint8_of_small (n : Nat) (h : n < 256) : uint8 (n : Int) = n := by
  unfold uint8; omega

theorem orthogonal_ne_none {d : direction} (h : orthogonal d) : d ≠ NONE := by
  rcases h with h | h | h | h <;> subst h <;> decide

theorem entry_orthogonal_iff (l : List direction) (k : Nat) :
    entry_orthogonal l k ↔ ∃ d, l[k]? = some d ∧ orthogonal d := by
  unfold entry_orthogonal
  cases h : l[k]? <;> simp

theorem scan_loop_hit (l : List direction) (n : Nat) (hn : n ≤ 127) (d : direction)
    (h : l[n]? = some d) (hd : d ≠ NONE) : scan_loop l (int8 (n : Int)) = some (n : Int) := by
  rw [int8_of_small _ (by omega) (by omega)]
  unfold scan_loop
  have h0 : ¬ ((n : Int) < 0) := by omega
  simp only [h0, if_false, Int.toNat_ofNat, scan_back, h]
  simp [hd]

theorem rd_natCast (l : List direction) (n : Nat) : rd l (n : Int) = l[n]? := by
  simp [rd]

/-- One reversal step on a log whose last two entries are orthogonal moves. -/
theorem reverse_direction_eq (dir : direction) (l : List direction) (n : Nat)
    (last prior : direction) (hn : n < 100)
    (hl : l[n]? = some last) (hp : l[n - 1]? = some prior)
    (hlo : orthogonal last) (hpo : orthogonal prior) :
    reverse_direction ⟨dir, l, n + 1⟩ =
      some (0, ⟨(reverse_table last prior).1, l,
        if (reverse_table last prior).2 then n - 1 else n⟩) := by
  have hi : scan_loop l (int8 (((n + 1 : Nat) : Int) - 1)) = some (n : Int) := by
    have : (((n + 1 : Nat) : Int) - 1) = (n : Int) := by push_cast; ring
    rw [this]
    exact scan_loop_hit l n (by omega) last hl (orthogonal_ne_none hlo)
  have hj : ∃ j0 : Int, scan_loop l (int8 ((n : Int) - 1)) = some j0 ∧
      (if j0 < 0 then (0 : Int) else j0) = ((n - 1 : Nat) : Int) := by
    rcases Nat.eq_zero_or_pos n with h0 | hpos
    · subst h0
      refine ⟨-1, ?_, by simp⟩
      simp [scan_loop, int8]
    · obtain ⟨m, rfl⟩ : ∃ m, n = m + 1 := ⟨n - 1, by omega⟩
      refine ⟨(m : Int), ?_, ?_⟩
      · have : (((m + 1 : Nat) : Int) - 1) = (m : Int) := by push_cast; ring
        rw [this]
        exact scan_loop_hit l m (by omega) prior (by simpa using hp) (orthogonal_ne_none hpo)
      · have : ¬ ((m : Int) < 0) := by omega
        simp [this]
  obtain ⟨j0, hj0, hjv⟩ := hj
  have hu1 : uint8 ((n - 1 : Nat) : Int) = n - 1 := uint8_of_small _ (by omega)
  have hu2 : uint8 (n : Int) = n := uint8_of_small _ (by omega)
  unfold reverse_direction
  simp only [Nat.le_zero, Nat.succ_ne_zero, if_false, hi, hj0, hjv, Option.bind_eq_bind,
    Option.some_bind, rd_natCast, hl, hp, hu1, hu2]
  rcases hlo with h | h | h | h <;> rcases hpo with h' | h' | h' | h' <;> subst h <;> subst h' <;>
    simp [reverse_table]

theorem append_orthogonal (s : State) (d : direction) (hd : orthogonal d)
    (hk : s.index < s.dir_list.length) (hu : s.index + 1 < 256) :
    append d s = some ⟨d, s.dir_list.set s.index d, s.index + 1⟩ := by
  have hm : (s.index + 1) % 256 = s.index + 1 := Nat.mod_eq_of_lt hu
  rcases hd with h | h | h | h <;> subst h <;>
    simp [append, send_message, store, wr, bump, hk, hm]

theorem append_diagonal (s : State) (d : direction) (hd : diagonal d)
    (hk : s.index + 1 < s.dir_list.length) (hu : s.index + 2 < 256) :
    append d s = some ⟨d, (s.dir_list.set s.index (vertical d)).set (s.index + 1)
      (horizontal d), s.index + 2⟩ := by
  have hm1 : (s.index + 1) % 256 = s.index + 1 := Nat.mod_eq_of_lt (by omega)
  have hm2 : (s.index + 1 + 1) % 256 = s.index + 2 := Nat.mod_eq_of_lt (by omega)
  have hk0 : s.index < s.dir_list.length := by omega
  rcases hd with h | h | h | h <;> subst h <;>
    simp [append, send_message, store, wr, bump, hk, hk0, hm1, hm2, vertical, horizontal]

/-! ## Reversal of the direction log -/

/-- C1: for a well-formed log with cursor between 1 and 100 whose entries below
the cursor are orthogonal moves, `reverse_direction` takes `i`, the highest
index below the cursor holding a non-`NONE` entry, and `j`, the next lower
such index (0 when there is none), returns 0 (not done), sets `dir` by the
combination table applied to the entries at `i` and `j`, and sets the cursor to
`j` when a merge applied and to `i` otherwise. -/
theorem reverse_step_follows_table (s : State) (hwf : s.wf) (h1 : 1 ≤ s.index)
    (h100 : s.index ≤ 100) (horth : log_orthogonal s) :
    ∃ (i j : Nat) (last prior : direction),
      is_last s.dir_list s.index i ∧ is_prior s.dir_list i j ∧
      s.dir_list[i]? = some last ∧ s.dir_list[j]? = some prior ∧
      reverse_direction s = some (0, { s with
        dir := (reverse_table last prior).1,
        index := if (reverse_table last prior).2 then j else i }) := by
  obtain ⟨dir, l, idx⟩ := s
  simp only [log_orthogonal, entry_orthogonal_iff] at horth
  simp only at h1 h100 horth
  obtain ⟨n, rfl⟩ : ∃ n, idx = n + 1 := ⟨idx - 1, by omega⟩
  obtain ⟨last, hl, hlo⟩ := horth n (by omega)
  obtain ⟨prior, hp, hpo⟩ := horth (n - 1) (by omega)
  refine ⟨n, n - 1, last, prior, ?_, ?_, hl, hp, ?_⟩
  · refine ⟨?_, ⟨last, hl, orthogonal_ne_none hlo⟩, fun k h1 h2 => ?_⟩
    · show n < n + 1
      omega
    · have h3 : k < n + 1 := h2
      omega
  · rcases Nat.eq_zero_or_pos n with h0 | hpos
    · right
      exact ⟨by omega, fun k hk => by omega⟩
    · left
      exact ⟨by omega, ⟨prior, hp, orthogonal_ne_none hpo⟩, fun k h1 h2 => by omega⟩
  · exact reverse_direction_eq dir l n last prior (by omega) hl hp hlo hpo

/-- Witness for C1: the log holding UP, RIGHT with cursor 2. -/
theorem reverse_step_follows_table_witness :
    (State.mk NONE (UP :: RIGHT :: List.replicate 98 DOWN) 2).wf ∧
    log_orthogonal (State.mk NONE (UP :: RIGHT :: List.replicate 98 DOWN) 2) ∧
    ∃ (i j : Nat) (last prior : direction),
      is_last (UP :: RIGHT :: List.replicate 98 DOWN) 2 i ∧
      is_prior (UP :: RIGHT :: List.replicate 98 DOWN) i j ∧
      (UP :: RIGHT :: List.replicate 98 DOWN)[i]? = some last ∧
      (UP :: RIGHT :: List.replicate 98 DOWN)[j]? = some prior ∧
      reverse_direction (State.mk NONE (UP :: RIGHT :: List.replicate 98 DOWN) 2) =
        some (0, State.mk (reverse_table last prior).1
          (UP :: RIGHT :: List.replicate 98 DOWN)
          (if (reverse_table last prior).2 then j else i)) :=
  ⟨by decide, by decide,
    reverse_step_follows_table (State.mk NONE (UP :: RIGHT :: List.replicate 98 DOWN) 2)
      (by decide) (by decide) (by decide) (by decide)⟩

/-- C2: from a reset log, after committing UP and then RIGHT, one reversal step
returns 0 (not done) with `dir = DOWNLEFT` and cursor 0; the next reversal step
returns 1 (done) with `dir = NONE` and leaves exactly the state that
`empty_all` produces. -/
theorem up_right_then_reverse :
    ∃ s2 s3 s4 : State,
      (append UP reset_state).bind (append RIGHT) = some s2 ∧
      reverse_direction s2 = some (0, s3) ∧ s3.dir = DOWNLEFT ∧ s3.index = 0 ∧
      reverse_direction s3 = some (1, s4) ∧ s4.dir = NONE ∧ s4.index = 0 ∧
      s4 = empty_all s3 ∧ s4 = reset_state :=
  ⟨State.mk RIGHT (UP :: RIGHT :: List.replicate 98 DOWN) 2,
   State.mk DOWNLEFT (UP :: RIGHT :: List.replicate 98 DOWN) 0,
   reset_state, by decide, by decide, rfl, rfl, by decide, rfl, rfl, by decide, rfl⟩

/-- Counterexample to C3 as stated: after committing UP, LEFT, DOWN from a reset
log, no run of three reversal steps has the first step return UPRIGHT with the
cursor at 0; the first step leaves the cursor at 1. -/
theorem up_left_down_cursor_not_zero :
    ¬ ∃ s3 s4 s5 s6 : State,
      ((append UP reset_state).bind (append LEFT)).bind (append DOWN) = some s3 ∧
      reverse_direction s3 = some (0, s4) ∧ s4.dir = UPRIGHT ∧ s4.index = 0 ∧
      reverse_direction s4 = some (0, s5) ∧ s5.dir = DOWN ∧
      reverse_direction s5 = some (1, s6) := by
  rintro ⟨s3, s4, s5, s6, h3, h4, -, hidx, -⟩
  have e3 : ((append UP reset_state).bind (append LEFT)).bind (append DOWN) =
      some (State.mk DOWN (UP :: LEFT :: DOWN :: List.replicate 97 DOWN) 3) := by decide
  rw [e3] at h3
  cases h3
  have e4 : reverse_direction (State.mk DOWN (UP :: LEFT :: DOWN :: List.replicate 97 DOWN) 3) =
      some (0, State.mk UPRIGHT (UP :: LEFT :: DOWN :: List.replicate 97 DOWN) 1) := by decide
  rw [e4] at h4
  cases h4
  exact absurd hidx (by decide)

/-- C3 amended: from a reset log, after committing UP, LEFT, DOWN, the first
reversal step merges (LEFT, DOWN), returns 0 with `dir = UPRIGHT` and moves the
cursor to 1; the second step consumes UP alone, returns 0 with `dir = DOWN` and
cursor 0; the third step returns 1 (done). -/
theorem up_left_down_then_drain :
    ∃ s3 s4 s5 s6 : State,
      ((append UP reset_state).bind (append LEFT)).bind (append DOWN) = some s3 ∧
      reverse_direction s3 = some (0, s4) ∧ s4.dir = UPRIGHT ∧ s4.index = 1 ∧
      reverse_direction s4 = some (0, s5) ∧ s5.dir = DOWN ∧ s5.index = 0 ∧
      reverse_direction s5 = some (1, s6) :=
  ⟨State.mk DOWN (UP :: LEFT :: DOWN :: List.replicate 97 DOWN) 3,
   State.mk UPRIGHT (UP :: LEFT :: DOWN :: List.replicate 97 DOWN) 1,
   State.mk DOWN (UP :: LEFT :: DOWN :: List.replicate 97 DOWN) 0,
   reset_state, by decide, by decide, rfl, rfl, by decide, rfl, rfl, by decide⟩

/-- C4: for a diagonal `d` and a well-formed log with cursor at most 98,
committing `d` in play mode and then taking one reversal step returns 0 (not
done), sets `dir` to the opposite diagonal, whose value is `(d + 4) mod 8`, and
restores the cursor. -/
theorem diagonal_append_then_reverse (d : direction) (s : State) (hd : diagonal d)
    (hwf : s.wf) (hk : s.index ≤ 98) :
    ∃ s1 s2 : State, append d s = some s1 ∧ reverse_direction s1 = some (0, s2) ∧
      diagonal s2.dir ∧ s2.dir.toNat = (d.toNat + 4) % 8 ∧ s2.index = s.index := by
  obtain ⟨dir, l, k⟩ := s
  obtain ⟨hlen, -⟩ := hwf
  simp only [capacity] at hlen hk
  have happ := append_diagonal ⟨dir, l, k⟩ d hd (by simp only; omega) (by simp only; omega)
  simp only at happ
  have hl : ((l.set k (vertical d)).set (k + 1) (horizontal d))[k + 1]? =
      some (horizontal d) := by
    simp [List.getElem?_set, hlen]
    omega
  have hp : ((l.set k (vertical d)).set (k + 1) (horizontal d))[k + 1 - 1]? =
      some (vertical d) := by
    simp [List.getElem?_set, hlen]
    omega
  have hho : orthogonal (horizontal d) := by
    rcases hd with h | h | h | h <;> subst h <;> decide
  have hvo : orthogonal (vertical d) := by
    rcases hd with h | h | h | h <;> subst h <;> decide
  have hrev := reverse_direction_eq d ((l.set k (vertical d)).set (k + 1) (horizontal d))
    (k + 1) (horizontal d) (vertical d) (by omega) hl hp hho hvo
  refine ⟨_, _, happ, hrev, ?_, ?_, ?_⟩ <;>
    rcases hd with h | h | h | h <;> subst h <;> simp [reverse_table, horizontal, vertical,
      diagonal, direction.toNat]

/-- Witness for C4: committing UPRIGHT on the reset log. -/
theorem diagonal_append_then_reverse_witness :
    diagonal UPRIGHT ∧ reset_state.wf ∧ reset_state.index ≤ 98 ∧
    ∃ s1 s2 : State, append UPRIGHT reset_state = some s1 ∧
      reverse_direction s1 = some (0, s2) ∧
      diagonal s2.dir ∧ s2.dir.toNat = (UPRIGHT.toNat + 4) % 8 ∧
      s2.index = reset_state.index :=
  ⟨by decide, by decide, by decide,
    diagonal_append_then_reverse UPRIGHT reset_state (by decide) (by decide) (by decide)⟩

/-- C5: on a log whose cursor is 0, `reverse_direction` returns 1 (done), sets
`dir` to `NONE` and leaves exactly the state that `empty_all` produces, with
cursor 0. -/
theorem reverse_on_empty_log (s : State) (h : s.index = 0) :
    reverse_direction s = some (1, empty_all s) ∧ (empty_all s).dir = NONE ∧
      (empty_all s).index = 0 := by
  refine ⟨?_, rfl, rfl⟩
  simp [reverse_direction, h, empty_all]

/-- Witness for C5: a log with stale entries and cursor 0. -/
theorem reverse_on_empty_log_witness :
    (State.mk UP [LEFT, UP, NONE] 0).index = 0 ∧
    reverse_direction (State.mk UP [LEFT, UP, NONE] 0) =
      some (1, empty_all (State.mk UP [LEFT, UP, NONE] 0)) ∧
    (empty_all (State.mk UP [LEFT, UP, NONE] 0)).dir = NONE ∧
    (empty_all (State.mk UP [LEFT, UP, NONE] 0)).index = 0 :=
  ⟨rfl, reverse_on_empty_log (State.mk UP [LEFT, UP, NONE] 0) rfl⟩

/-- C6 on the code: `empty_all` sets the cursor to 0 and fills the 100 entries
with the value 0, which is `DOWN`, not with `NONE` (value 8). -/
theorem empty_all_entries_are_down (s : State) :
    (empty_all s).index = 0 ∧ (empty_all s).dir_list = List.replicate 100 DOWN ∧
      (empty_all s).dir_list.length = 100 ∧ DOWN.toNat = 0 ∧ NONE.toNat = 8 ∧
      (empty_all s).dir_list ≠ List.replicate 100 NONE := by
  refine ⟨rfl, rfl, rfl, rfl, rfl, ?_⟩
  show List.replicate 100 DOWN ≠ List.replicate 100 NONE
  decide

/-! ## Appending to the direction log -/

/-- C7: committing a direction `d` in play mode on a well-formed log with cursor
`k`.  If `d` is orthogonal and `k < 100`, `d` is written at index `k` and the
cursor becomes `k + 1`.  If `d` is a diagonal and `k + 1 < 100`, its vertical
component is written at index `k`, its horizontal component at index `k + 1`,
and the cursor becomes `k + 2`.  All other entries are unchanged. -/
theorem append_writes_at_cursor (s : State) (d : direction) (hwf : s.wf) :
    (orthogonal d → s.index < 100 →
      ∃ s1 : State, append d s = some s1 ∧ s1.index = s.index + 1 ∧
        s1.dir_list[s.index]? = some d ∧
        s1.dir_list.length = s.dir_list.length ∧
        ∀ m, m ≠ s.index → s1.dir_list[m]? = s.dir_list[m]?) ∧
    (diagonal d → s.index + 1 < 100 →
      ∃ s1 : State, append d s = some s1 ∧ s1.index = s.index + 2 ∧
        s1.dir_list[s.index]? = some (vertical d) ∧
        s1.dir_list[s.index + 1]? = some (horizontal d) ∧
        (vertical d = UP ∨ vertical d = DOWN) ∧
        (horizontal d = LEFT ∨ horizontal d = RIGHT) ∧
        s1.dir_list.length = s.dir_list.length ∧
        ∀ m, m ≠ s.index → m ≠ s.index + 1 → s1.dir_list[m]? = s.dir_list[m]?) := by
  obtain ⟨dir, l, k⟩ := s
  obtain ⟨hlen, -⟩ := hwf
  simp only [capacity] at hlen
  constructor
  · intro hd hk
    simp only at hk
    refine ⟨_, append_orthogonal ⟨dir, l, k⟩ d hd (by simp only; omega) (by simp only; omega),
      rfl, ?_, ?_, ?_⟩
    · simp [List.getElem?_set, hlen, hk]
    · simp
    · intro m hm
      simp only at hm
      simp [List.getElem?_set, Ne.symm hm]
  · intro hd hk
    simp only at hk
    refine ⟨_, append_diagonal ⟨dir, l, k⟩ d hd (by simp only; omega) (by simp only; omega),
      rfl, ?_, ?_, ?_, ?_, ?_, ?_⟩
    · simp [List.getElem?_set, hlen]
      omega
    · simp [List.getElem?_set, hlen]
      omega
    · rcases hd with h | h | h | h <;> subst h <;> simp [vertical]
    · rcases hd with h | h | h | h <;> subst h <;> simp [horizontal]
    · simp
    · intro m hm hm1
      simp only at hm hm1
      simp [List.getElem?_set, Ne.symm hm, Ne.symm hm1]

/-- Witness for C7: committing DOWN, and committing UPLEFT, on the reset log. -/
theorem append_writes_at_cursor_witness :
    reset_state.wf ∧ orthogonal DOWN ∧ diagonal UPLEFT ∧ reset_state.index + 1 < 100 ∧
    (∃ s1 : State, append DOWN reset_state = some s1 ∧ s1.index = reset_state.index + 1 ∧
        s1.dir_list[reset_state.index]? = some DOWN ∧
        s1.dir_list.length = reset_state.dir_list.length ∧
        ∀ m, m ≠ reset_state.index → s1.dir_list[m]? = reset_state.dir_list[m]?) ∧
    (∃ s1 : State, append UPLEFT reset_state = some s1 ∧ s1.index = reset_state.index + 2 ∧
        s1.dir_list[reset_state.index]? = some (vertical UPLEFT) ∧
        s1.dir_list[reset_state.index + 1]? = some (horizontal UPLEFT) ∧
        (vertical UPLEFT = UP ∨ vertical UPLEFT = DOWN) ∧
        (horizontal UPLEFT = LEFT ∨ horizontal UPLEFT = RIGHT) ∧
        s1.dir_list.length = reset_state.dir_list.length ∧
        ∀ m, m ≠ reset_state.index → m ≠ reset_state.index + 1 →
          s1.dir_list[m]? = reset_state.dir_list[m]?) :=
  ⟨by decide, by decide, by decide, by decide,
    (append_writes_at_cursor reset_state DOWN (by decide)).1 (by decide) (by decide),
    (append_writes_at_cursor reset_state UPLEFT (by decide)).2 (by decide) (by decide)⟩

/-- C8 on the code: with the cursor at capacity the store of `send_message` is
the access `dir_list[100]`, outside the array; nothing rejects the append.  The
same happens to the second store of a diagonal when the cursor is 99. -/
theorem append_at_capacity_is_out_of_bounds :
    (State.mk NONE memset_zero 100).wf ∧
      wr memset_zero 100 UP = none ∧
      append UP (State.mk NONE memset_zero 100) = none ∧
      append DOWNLEFT (State.mk NONE memset_zero 100) = none ∧
      append UPRIGHT (State.mk NONE memset_zero 99) = none := by
  refine ⟨by decide, by decide, by decide, by decide, by decide⟩

/-! ## The direction classifier -/

theorem PI_pos : (0 : ℚ) < PI := by norm_num [PI]

/-- C9: with `theta = atan2(ay, -ax)` and the source constant `PI`,
`determine_direction` sets RIGHT for `theta` in `(-PI/8, PI/8)`, UPRIGHT in
`(PI/8, 3PI/8)`, UP in `[3PI/8, 5PI/8)`, UPLEFT in `[5PI/8, 7PI/8)`, DOWNRIGHT
in `(-3PI/8, -PI/8]`, DOWN in `(-5PI/8, -3PI/8]` and DOWNLEFT in
`(-7PI/8, -5PI/8]`; in particular `theta = 3PI/8` gives UP. -/
theorem classify_sectors (atan2 : ℚ → ℚ → ℚ) (ax ay : ℚ) (s : State) :
    (-PI / 8 < atan2 ay (-ax) ∧ atan2 ay (-ax) < PI / 8 →
      (determine_direction atan2 ax ay s).dir = RIGHT) ∧
    (PI / 8 < atan2 ay (-ax) ∧ atan2 ay (-ax) < 3 * PI / 8 →
      (determine_direction atan2 ax ay s).dir = UPRIGHT) ∧
    (3 * PI / 8 ≤ atan2 ay (-ax) ∧ atan2 ay (-ax) < 5 * PI / 8 →
      (determine_direction atan2 ax ay s).dir = UP) ∧
    (5 * PI / 8 ≤ atan2 ay (-ax) ∧ atan2 ay (-ax) < 7 * PI / 8 →
      (determine_direction atan2 ax ay s).dir = UPLEFT) ∧
    (-3 * PI / 8 < atan2 ay (-ax) ∧ atan2 ay (-ax) ≤ -PI / 8 →
      (determine_direction atan2 ax ay s).dir = DOWNRIGHT) ∧
    (-5 * PI / 8 < atan2 ay (-ax) ∧ atan2 ay (-ax) ≤ -3 * PI / 8 →
      (determine_direction atan2 ax ay s).dir = DOWN) ∧
    (-7 * PI / 8 < atan2 ay (-ax) ∧ atan2 ay (-ax) ≤ -5 * PI / 8 →
      (determine_direction atan2 ax ay s).dir = DOWNLEFT) ∧
    (atan2 ay (-ax) = 3 * PI / 8 → (determine_direction atan2 ax ay s).dir = UP) := by
  have hP := PI_pos
  simp only [determine_direction]
  generalize atan2 ay (-ax) = t
  refine ⟨?_, ?_, ?_, ?_, ?_, ?_, ?_, ?_⟩
  · rintro ⟨h1, h2⟩
    rw [classify_angle, if_pos ⟨h2, h1⟩]
  · rintro ⟨h1, h2⟩
    rw [classify_angle, if_neg (by rintro ⟨a, b⟩; linarith), if_pos ⟨h1, h2⟩]
  · rintro ⟨h1, h2⟩
    rw [classify_angle, if_neg (by rintro ⟨a, b⟩; linarith),
      if_neg (by rintro ⟨a, b⟩; linarith), if_pos ⟨h1, h2⟩]
  · rintro ⟨h1, h2⟩
    rw [classify_angle, if_neg (by rintro ⟨a, b⟩; linarith),
      if_neg (by rintro ⟨a, b⟩; linarith), if_neg (by rintro ⟨a, b⟩; linarith),
      if_pos ⟨h1, h2⟩]
  · rintro ⟨h1, h2⟩
    rw [classify_angle, if_neg (by rintro ⟨a, b⟩; linarith),
      if_neg (by rintro ⟨a, b⟩; linarith), if_neg (by rintro ⟨a, b⟩; linarith),
      if_neg (by rintro ⟨a, b⟩; linarith), if_pos ⟨h2, h1⟩]
  · rintro ⟨h1, h2⟩
    rw [classify_angle, if_neg (by rintro ⟨a, b⟩; linarith),
      if_neg (by rintro ⟨a, b⟩; linarith), if_neg (by rintro ⟨a, b⟩; linarith),
      if_neg (by rintro ⟨a, b⟩; linarith), if_neg (by rintro ⟨a, b⟩; linarith),
      if_pos ⟨h2, h1⟩]
  · rintro ⟨h1, h2⟩
    rw [classify_angle, if_neg (by rintro ⟨a, b⟩; linarith),
      if_neg (by rintro ⟨a, b⟩; linarith), if_neg (by rintro ⟨a, b⟩; linarith),
      if_neg (by rintro ⟨a, b⟩; linarith), if_neg (by rintro ⟨a, b⟩; linarith),
      if_neg (by rintro ⟨a, b⟩; linarith), if_pos ⟨h2, h1⟩]
  · intro h
    subst h
    rw [classify_angle, if_neg (by rintro ⟨a, b⟩; linarith),
      if_neg (by rintro ⟨a, b⟩; linarith), if_pos ⟨le_refl _, by linarith⟩]

/-- Witness for C9: one angle in each sector, through a stand-in for `atan2`
that returns its first argument. -/
theorem classify_sectors_witness :
    ((-PI / 8 < (0 : ℚ) ∧ (0 : ℚ) < PI / 8) ∧
      (determine_direction (fun y _ => y) 1 0 reset_state).dir = RIGHT) ∧
    ((PI / 8 < (1 / 2 : ℚ) ∧ (1 / 2 : ℚ) < 3 * PI / 8) ∧
      (determine_direction (fun y _ => y) 1 (1 / 2) reset_state).dir = UPRIGHT) ∧
    ((3 * PI / 8 ≤ (3 / 2 : ℚ) ∧ (3 / 2 : ℚ) < 5 * PI / 8) ∧
      (determine_direction (fun y _ => y) 1 (3 / 2) reset_state).dir = UP) ∧
    ((5 * PI / 8 ≤ (2 : ℚ) ∧ (2 : ℚ) < 7 * PI / 8) ∧
      (determine_direction (fun y _ => y) 1 2 reset_state).dir = UPLEFT) ∧
    ((-3 * PI / 8 < (-1 / 2 : ℚ) ∧ (-1 / 2 : ℚ) ≤ -PI / 8) ∧
      (determine_direction (fun y _ => y) 1 (-1 / 2) reset_state).dir = DOWNRIGHT) ∧
    ((-5 * PI / 8 < (-3 / 2 : ℚ) ∧ (-3 / 2 : ℚ) ≤ -3 * PI / 8) ∧
      (determine_direction (fun y _ => y) 1 (-3 / 2) reset_state).dir = DOWN) ∧
    ((-7 * PI / 8 < (-2 : ℚ) ∧ (-2 : ℚ) ≤ -5 * PI / 8) ∧
      (determine_direction (fun y _ => y) 1 (-2) reset_state).dir = DOWNLEFT) ∧
    (determine_direction (fun y _ => y) 1 (3 * PI / 8) reset_state).dir = UP :=
  ⟨⟨by norm_num [PI],
      (classify_sectors (fun y _ => y) 1 0 reset_state).1 (by norm_num [PI])⟩,
    ⟨by norm_num [PI],
      (classify_sectors (fun y _ => y) 1 (1 / 2) reset_state).2.1 (by norm_num [PI])⟩,
    ⟨by norm_num [PI],
      (classify_sectors (fun y _ => y) 1 (3 / 2) reset_state).2.2.1 (by norm_num [PI])⟩,
    ⟨by norm_num [PI],
      (classify_sectors (fun y _ => y) 1 2 reset_state).2.2.2.1 (by norm_num [PI])⟩,
    ⟨by norm_num [PI],
      (classify_sectors (fun y _ => y) 1 (-1 / 2) reset_state).2.2.2.2.1 (by norm_num [PI])⟩,
    ⟨by norm_num [PI],
      (classify_sectors (fun y _ => y) 1 (-3 / 2) reset_state).2.2.2.2.2.1
        (by norm_num [PI])⟩,
    ⟨by norm_num [PI],
      (classify_sectors (fun y _ => y) 1 (-2) reset_state).2.2.2.2.2.2.1 (by norm_num [PI])⟩,
    (classify_sectors (fun y _ => y) 1 (3 * PI / 8) reset_state).2.2.2.2.2.2.2 rfl⟩

/-- The angles that the comparison chain sends to LEFT: those of absolute value
at least `7PI/8`, and the single boundary value `PI/8`. -/
theorem classify_left_iff (t : ℚ) :
    classify_angle t = LEFT ↔ (7 * PI / 8 ≤ |t| ∨ t = PI / 8) := by
  have hP := PI_pos
  unfold classify_angle
  split_ifs with h1 h2 h3 h4 h5 h6 h7
  · simp only [reduceCtorEq, false_iff, not_or, not_le]
    exact ⟨abs_lt.mpr ⟨by linarith [h1.2], by linarith [h1.1]⟩, by linarith [h1.1]⟩
  · simp only [reduceCtorEq, false_iff, not_or, not_le]
    exact ⟨abs_lt.mpr ⟨by linarith [h2.1], by linarith [h2.2]⟩, by linarith [h2.1]⟩
  · simp only [reduceCtorEq, false_iff, not_or, not_le]
    exact ⟨abs_lt.mpr ⟨by linarith [h3.1], by linarith [h3.2]⟩, by linarith [h3.1]⟩
  · simp only [reduceCtorEq, false_iff, not_or, not_le]
    exact ⟨abs_lt.mpr ⟨by linarith [h4.1], by linarith [h4.2]⟩, by linarith [h4.1]⟩
  · simp only [reduceCtorEq, false_iff, not_or, not_le]
    exact ⟨abs_lt.mpr ⟨by linarith [h5.2], by linarith [h5.1]⟩, by linarith [h5.1]⟩
  · simp only [reduceCtorEq, false_iff, not_or, not_le]
    exact ⟨abs_lt.mpr ⟨by linarith [h6.2], by linarith [h6.1]⟩, by linarith [h6.1]⟩
  · simp only [reduceCtorEq, false_iff, not_or, not_le]
    exact ⟨abs_lt.mpr ⟨by linarith [h7.2], by linarith [h7.1]⟩, by linarith [h7.1]⟩
  · simp only [true_iff]
    by_contra hcon
    push_neg at hcon h1 h2 h3 h4 h5 h6 h7
    obtain ⟨habs, hne⟩ := hcon
    rw [abs_lt] at habs
    obtain ⟨ha, hb⟩ := habs
    rcases lt_or_gt_of_ne hne with hlt | hgt
    · have a1 := h1 hlt
      have a5 := h5 a1
      have a6 := h6 (by linarith)
      have a7 := h7 (by linarith)
      linarith
    · have a2 := h2 hgt
      have a3 := h3 a2
      have a4 := h4 (by linarith)
      linarith

theorem is_float_scaled (q : ℚ) (h : is_float q) : ∃ m : Int, q * 2 ^ 149 = (m : ℚ) := by
  obtain ⟨k, hk⟩ := h
  refine ⟨q.num * (k : Int), ?_⟩
  have hden : (q.den : ℚ) ≠ 0 := by exact_mod_cast q.den_nz
  have hk2 : (2 : ℚ) ^ 149 = (q.den : ℚ) * (k : ℚ) := by exact_mod_cast hk
  rw [hk2]
  push_cast
  nth_rewrite 1 [← Rat.num_div_den q]
  field_simp
  ring

/-- The boundary `PI/8` of the comparison chain is not a value of type `float`:
its denominator has the factor 5. -/
theorem PI_eighth_not_float (q : ℚ) (h : is_float q) : q ≠ PI / 8 := by
  intro hq
  obtain ⟨m, hm⟩ := is_float_scaled q h
  rw [hq] at hm
  have h1 : (314159265 : ℚ) * 2 ^ 149 = 800000000 * (m : ℚ) := by
    rw [← hm]
    unfold PI
    ring
  have h2 : (314159265 : Int) * 2 ^ 149 = 800000000 * m := by exact_mod_cast h1
  omega

/-- C10: with `theta = atan2(ay, -ax)` stored in the `float` variable `angle`,
`determine_direction` sets LEFT if and only if `|theta| >= 7PI/8`.  (The one
other value that the comparison chain sends to LEFT, `PI/8` itself, is not a
value of type `float`.) -/
theorem classify_left_iff_far (atan2 : ℚ → ℚ → ℚ) (ax ay : ℚ) (s : State)
    (hf : is_float (atan2 ay (-ax))) :
    (determine_direction atan2 ax ay s).dir = LEFT ↔ 7 * PI / 8 ≤ |atan2 ay (-ax)| := by
  simp only [determine_direction]
  rw [classify_left_iff]
  constructor
  · rintro (h | h)
    · exact h
    · exact absurd h (PI_eighth_not_float _ hf)
  · exact Or.inl

/-- Witness for C10: the angle 3, beyond `7PI/8`, through a stand-in for `atan2`
that returns its first argument. -/
theorem classify_left_iff_far_witness :
    is_float ((fun (y : ℚ) (_ : ℚ) => y) 3 (-1)) ∧
    ((determine_direction (fun y _ => y) 1 3 reset_state).dir = LEFT ↔
      7 * PI / 8 ≤ |(fun (y : ℚ) (_ : ℚ) => y) 3 (-1)|) :=
  ⟨by decide, classify_left_iff_far (fun y _ => y) 1 3 reset_state (by decide)⟩

theorem classify_angle_ne_none (t : ℚ) :
    classify_angle t ≠ NONE ∧ (classify_angle t).toNat ≤ 7 := by
  unfold classify_angle
  split_ifs <;> exact ⟨by decide, by decide⟩

/-- C11: `determine_direction` always sets one of the eight compass directions
(values 0 to 7), never `NONE`, whatever the inputs and whatever `atan2` returns. -/
theorem classify_never_none (atan2 : ℚ → ℚ → ℚ) (ax ay : ℚ) (s : State) :
    (determine_direction atan2 ax ay s).dir ≠ NONE ∧
      (determine_direction atan2 ax ay s).dir.toNat ≤ 7 := by
  exact classify_angle_ne_none (atan2 ay (-ax))

/-! ## The gesture detector -/

theorem sign_flip_self (x : Sample) (d : Detector) (hx : d.init_ax = x.ax)
    (hy : d.init_ay = x.ay) : ¬ sign_flip x d := by
  unfold sign_flip
  rw [hx, hy]
  rintro (⟨a, b⟩ | ⟨a, b⟩ | ⟨a, b⟩ | ⟨a, b⟩) <;> exact lt_asymm a b

theorem moves_succ_ne (m : Nat) : (m + 1) % 256 ≠ m := by omega

theorem push_init (x : Sample) (d : Detector) :
    (push x d).init_ax = d.init_ax ∧ (push x d).init_ay = d.init_ay ∧
      (push x d).ignore = d.ignore ∧ (push x d).moves = d.moves ∧
      (push x d).send = d.send ∧ (push x d).game = d.game ∧ (push x d).update = d.update := by
  unfold push
  split_ifs <;> simp

theorem arm_frame (sqrt : ℚ → ℚ) (x : Sample) (d : Detector) :
    (arm sqrt x d).moves = d.moves ∧ (arm sqrt x d).send = d.send ∧
      (arm sqrt x d).game = d.game ∧ (arm sqrt x d).update = d.update := by
  unfold arm
  split_ifs <;> simp

/-- C12: a sample changes the move counter (emits a commit) exactly when, in the
state after the arming and buffer statements, `var < 50`, the magnitude exceeds
8.0, the detector is armed and a sign of `ax` or `ay` is opposite to that of
`init_ax` or `init_ay`.  On a commit the detector was armed before the sample,
the arming statement did not fire, `dir` is the classification of the vector
`(init_ax, init_ay)` stored at arming time, and `send` and `update` are 1. -/
theorem sample_commits_iff (atan2 : ℚ → ℚ → ℚ) (sqrt : ℚ → ℚ) (x : Sample) (d : Detector) :
    ((sensor_step atan2 sqrt x d).moves ≠ d.moves ↔
      (variance (push x (arm sqrt x d)).z_data (push x (arm sqrt x d)).z_index < 50 ∧
        magnitude sqrt x > 8 ∧ (push x (arm sqrt x d)).ignore ≠ 0 ∧
        sign_flip x (push x (arm sqrt x d)))) ∧
    ((sensor_step atan2 sqrt x d).moves ≠ d.moves →
      d.ignore ≠ 0 ∧ arm sqrt x d = d ∧
      (sensor_step atan2 sqrt x d).game.dir = classify_angle (atan2 d.init_ay (-d.init_ax)) ∧
      (sensor_step atan2 sqrt x d).game.dir ≠ NONE ∧
      (sensor_step atan2 sqrt x d).send = 1 ∧ (sensor_step atan2 sqrt x d).update = 1 ∧
      (sensor_step atan2 sqrt x d).moves = (d.moves + 1) % 256) := by
  obtain ⟨hpx, hpy, hpi, hpm, -, -, -⟩ := push_init x (arm sqrt x d)
  obtain ⟨ham, -, -, -⟩ := arm_frame sqrt x d
  have hiff : (sensor_step atan2 sqrt x d).moves ≠ d.moves ↔
      (variance (push x (arm sqrt x d)).z_data (push x (arm sqrt x d)).z_index < 50 ∧
        magnitude sqrt x > 8 ∧ (push x (arm sqrt x d)).ignore ≠ 0 ∧
        sign_flip x (push x (arm sqrt x d))) := by
    unfold sensor_step confirm
    split_ifs with h
    · simp only [hpm, ham]
      exact ⟨fun _ => ⟨h.1, h.2.2.1, h.2.1, h.2.2.2⟩, fun _ => moves_succ_ne d.moves⟩
    · simp only [hpm, ham, ne_eq, not_true_eq_false, false_iff]
      rintro ⟨a, b, c, e⟩
      exact h ⟨a, c, b, e⟩
  refine ⟨hiff, fun hne => ?_⟩
  obtain ⟨hv, hm, hi, hf⟩ := hiff.mp hne
  have hnarm : ¬ (magnitude sqrt x > 8 ∧ x.az < -6 ∧ d.ignore = 0) := by
    intro harm
    apply sign_flip_self x (push x (arm sqrt x d)) _ _ hf
    · rw [hpx]; simp [arm, harm]
    · rw [hpy]; simp [arm, harm]
  have harm : arm sqrt x d = d := by simp [arm, hnarm]
  have hcond : variance (push x (arm sqrt x d)).z_data (push x (arm sqrt x d)).z_index < 50 ∧
      (push x (arm sqrt x d)).ignore ≠ 0 ∧ magnitude sqrt x > 8 ∧
      sign_flip x (push x (arm sqrt x d)) := ⟨hv, hi, hm, hf⟩
  have hd : d.ignore ≠ 0 := by
    rw [hpi, harm] at hi
    exact hi
  have hdir : (sensor_step atan2 sqrt x d).game.dir =
      classify_angle (atan2 d.init_ay (-d.init_ax)) := by
    unfold sensor_step confirm
    rw [if_pos hcond]
    simp only [determine_direction, hpx, hpy]
    rw [harm]
  refine ⟨hd, harm, hdir, ?_, ?_, ?_, ?_⟩
  · rw [hdir]
    exact (classify_angle_ne_none (atan2 d.init_ay (-d.init_ax))).1
  · unfold sensor_step confirm
    rw [if_pos hcond]
  · unfold sensor_step confirm
    rw [if_pos hcond]
  · unfold sensor_step confirm
    rw [if_pos hcond]
    simp only [hpm, ham]

/-- Witness for C12: a detector armed with `(init_ax, init_ay) = (10, 0)` and one
buffered value receives the opposite swing `(-10, 0, 0)`; the stand-in for
`sqrt` agrees with the library function at the value used, the stand-in for
`atan2` is the constant 0 (the library function returns pi at `(0, -10)`). -/
theorem sample_commits_iff_witness :
    (sensor_step (fun _ _ => 0) (fun q => q / 10) (Sample.mk (-10) 0 0)
        (Detector.mk 1 10 0 (-7 :: List.replicate 9 0) 1 0 0 0 reset_state)).moves ≠ 0 ∧
    (sensor_step (fun _ _ => 0) (fun q => q / 10) (Sample.mk (-10) 0 0)
        (Detector.mk 1 10 0 (-7 :: List.replicate 9 0) 1 0 0 0 reset_state)).game.dir =
      classify_angle 0 ∧
    (sensor_step (fun _ _ => 0) (fun q => q / 10) (Sample.mk (-10) 0 0)
        (Detector.mk 1 10 0 (-7 :: List.replicate 9 0) 1 0 0 0 reset_state)).send = 1 := by
  have hne : (sensor_step (fun _ _ => 0) (fun q => q / 10) (Sample.mk (-10) 0 0)
      (Detector.mk 1 10 0 (-7 :: List.replicate 9 0) 1 0 0 0 reset_state)).moves ≠ 0 := by
    norm_num [sensor_step, confirm, push, arm, magnitude, sign_flip, variance]
  have h := (sample_commits_iff (fun _ _ => 0) (fun q => q / 10) (Sample.mk (-10) 0 0)
    (Detector.mk 1 10 0 (-7 :: List.replicate 9 0) 1 0 0 0 reset_state)).2 hne
  exact ⟨hne, h.2.2.1, h.2.2.2.2.1⟩

theorem sensor_step_idle (atan2 : ℚ → ℚ → ℚ) (sqrt : ℚ → ℚ) (x : Sample) (d : Detector)
    (hd : d.ignore = 0) (hw : magnitude sqrt x ≤ 8) : sensor_step atan2 sqrt x d = d := by
  have h1 : arm sqrt x d = d := by
    unfold arm
    rw [if_neg]
    rintro ⟨a, -, -⟩
    exact absurd a (not_lt.mpr hw)
  have h2 : push x d = d := by
    unfold push
    rw [if_neg]
    simp [hd]
  unfold sensor_step
  rw [h1, h2]
  unfold confirm
  rw [if_neg]
  rintro ⟨-, a, -, -⟩
  exact a hd

/-- C13: from a disarmed detector, a sequence of samples whose magnitude is at
most 8.0 at every sample never arms the detector and never commits: after
every sample `ignore` is 0 and `moves`, `send`, `update` and the direction log
are as at the start. -/
theorem weak_samples_never_arm (atan2 : ℚ → ℚ → ℚ) (sqrt : ℚ → ℚ) (xs : List Sample)
    (d : Detector) (hd : d.ignore = 0) (hw : all_weak sqrt xs) :
    ∀ e ∈ sensor_trace atan2 sqrt d xs,
      e.ignore = 0 ∧ e.moves = d.moves ∧ e.send = d.send ∧ e.update = d.update ∧
        e.game = d.game := by
  induction xs with
  | nil => intro e he; simp [sensor_trace] at he
  | cons x xs ih =>
    have hx : magnitude sqrt x ≤ 8 := hw x (List.mem_cons_self x xs)
    have hstep := sensor_step_idle atan2 sqrt x d hd hx
    intro e he
    simp only [sensor_trace, hstep, List.mem_cons] at he
    rcases he with rfl | he
    · exact ⟨hd, rfl, rfl, rfl, rfl⟩
    · exact ih (fun y hy => hw y (List.mem_cons_of_mem x hy)) e he

/-- Witness for C13: two weak samples on a disarmed detector (the stand-in for
`sqrt` agrees with the square root at the values used). -/
theorem weak_samples_never_arm_witness :
    (Detector.mk 0 0 0 z_zero 0 0 0 0 reset_state).ignore = 0 ∧
    all_weak (fun q => q / 5) [Sample.mk 3 4 (-9), Sample.mk (-4) 3 (-7)] ∧
    ∀ e ∈ sensor_trace (fun _ _ => 0) (fun q => q / 5)
        (Detector.mk 0 0 0 z_zero 0 0 0 0 reset_state)
        [Sample.mk 3 4 (-9), Sample.mk (-4) 3 (-7)],
      e.ignore = 0 ∧ e.moves = (Detector.mk 0 0 0 z_zero 0 0 0 0 reset_state).moves ∧
        e.send = (Detector.mk 0 0 0 z_zero 0 0 0 0 reset_state).send ∧
        e.update = (Detector.mk 0 0 0 z_zero 0 0 0 0 reset_state).update ∧
        e.game = (Detector.mk 0 0 0 z_zero 0 0 0 0 reset_state).game :=
  ⟨rfl, by intro x hx; simp at hx; rcases hx with rfl | rfl <;> norm_num [magnitude],
    weak_samples_never_arm (fun _ _ => 0) (fun q => q / 5)
      [Sample.mk 3 4 (-9), Sample.mk (-4) 3 (-7)]
      (Detector.mk 0 0 0 z_zero 0 0 0 0 reset_state) rfl
      (by intro x hx; simp at hx; rcases hx with rfl | rfl <;> norm_num [magnitude])⟩

theorem sensor_step_high_var (atan2 : ℚ → ℚ → ℚ) (sqrt : ℚ → ℚ) (x : Sample) (d : Detector)
    (hv : 50 ≤ sample_var sqrt x d) :
    sensor_step atan2 sqrt x d = push x (arm sqrt x d) := by
  unfold sensor_step confirm
  rw [if_neg]
  rintro ⟨a, -, -, -⟩
  exact absurd a (not_lt.mpr hv)

/-- C14: a sequence of samples at each of which the computed `var` is at least
50 never commits: after every sample `moves`, `send` and the direction log are
as at the start.  When `ignore_clkFxn` runs, on any state, the detector is
disarmed, the buffer is zeroed with index 0, and the direction log, `send`,
`update` and `moves` are unchanged. -/
theorem high_variance_never_confirms (atan2 : ℚ → ℚ → ℚ) (sqrt : ℚ → ℚ) (xs : List Sample)
    (d : Detector) (hv : all_var_high atan2 sqrt d xs) :
    (∀ e ∈ sensor_trace atan2 sqrt d xs,
      e.moves = d.moves ∧ e.send = d.send ∧ e.update = d.update ∧ e.game = d.game) ∧
    (∀ e : Detector, (ignore_clkFxn e).ignore = 0 ∧ (ignore_clkFxn e).z_index = 0 ∧
      (ignore_clkFxn e).z_data = List.replicate 10 0 ∧ (ignore_clkFxn e).game = e.game ∧
      (ignore_clkFxn e).send = e.send ∧ (ignore_clkFxn e).update = e.update ∧
      (ignore_clkFxn e).moves = e.moves) := by
  refine ⟨?_, fun e => ⟨rfl, rfl, rfl, rfl, rfl, rfl, rfl⟩⟩
  induction xs generalizing d with
  | nil => intro e he; simp [sensor_trace] at he
  | cons x xs ih =>
    obtain ⟨hx, hrest⟩ := hv
    have hstep := sensor_step_high_var atan2 sqrt x d hx
    obtain ⟨-, -, -, hpm, hps, hpg, hpu⟩ := push_init x (arm sqrt x d)
    obtain ⟨ham, has, hag, hau⟩ := arm_frame sqrt x d
    have hframe : (sensor_step atan2 sqrt x d).moves = d.moves ∧
        (sensor_step atan2 sqrt x d).send = d.send ∧
        (sensor_step atan2 sqrt x d).update = d.update ∧
        (sensor_step atan2 sqrt x d).game = d.game := by
      rw [hstep]
      exact ⟨hpm.trans ham, hps.trans has, hpu.trans hau, hpg.trans hag⟩
    intro e he
    simp only [sensor_trace, List.mem_cons] at he
    rcases he with rfl | he
    · exact hframe
    · obtain ⟨a, b, c, g⟩ := ih (sensor_step atan2 sqrt x d) hrest e he
      exact ⟨a.trans hframe.1, b.trans hframe.2.1, c.trans hframe.2.2.1, g.trans hframe.2.2.2⟩

/-- Witness for C14: an armed detector holding one buffered value 0 receives a
sample with `az = 20`; the computed `var` is 100. -/
theorem high_variance_never_confirms_witness :
    all_var_high (fun _ _ => 0) (fun q => q / 10)
      (Detector.mk 1 10 0 z_zero 1 0 0 0 reset_state) [Sample.mk (-10) 0 20] ∧
    (∀ e ∈ sensor_trace (fun _ _ => 0) (fun q => q / 10)
        (Detector.mk 1 10 0 z_zero 1 0 0 0 reset_state) [Sample.mk (-10) 0 20],
      e.moves = (Detector.mk 1 10 0 z_zero 1 0 0 0 reset_state).moves ∧
      e.send = (Detector.mk 1 10 0 z_zero 1 0 0 0 reset_state).send ∧
      e.update = (Detector.mk 1 10 0 z_zero 1 0 0 0 reset_state).update ∧
      e.game = (Detector.mk 1 10 0 z_zero 1 0 0 0 reset_state).game) :=
  ⟨by norm_num [all_var_high, sample_var, push, arm, magnitude, variance, z_zero],
    (high_variance_never_confirms (fun _ _ => 0) (fun q => q / 10) [Sample.mk (-10) 0 20]
      (Detector.mk 1 10 0 z_zero 1 0 0 0 reset_state)
      (by norm_num [all_var_high, sample_var, push, arm, magnitude, variance, z_zero])).1⟩

/-! ## The maze: ball movement and collision -/

theorem move_ball_frame (F : FloatOps) (ax ay : ℚ) (m : Maze) :
    (move_ball F ax ay m).blocks = m.blocks ∧ (move_ball F ax ay m).end_i = m.end_i ∧
      (move_ball F ax ay m).end_j = m.end_j ∧ (move_ball F ax ay m).clear = m.clear := by
  unfold move_ball
  dsimp only
  split_ifs <;> exact ⟨rfl, rfl, rfl, rfl⟩

theorem mem_cells (i j : Nat) : (i, j) ∈ cells ↔ i < 6 ∧ j < 6 := by
  simp [cells]

theorem inside_iff (x y i j : Nat) :
    inside x y i j = true ↔
      16 * i < x ∧ x < 16 * (i + 1) ∧ 96 < y + 16 * (j + 1) ∧ y + 16 * j < 96 := by
  unfold inside
  rw [decide_eq_true_iff]
  omega

theorem wall_hit_iff (m : Maze) :
    wall_hit m = true ↔
      ∃ i j, i < 6 ∧ j < 6 ∧ blk m.blocks i j = 0 ∧ m.clear = 0 ∧
        inside m.ball_x m.ball_y i j = true := by
  unfold wall_hit
  rw [List.any_eq_true]
  constructor
  · rintro ⟨⟨i, j⟩, hmem, h⟩
    rw [mem_cells] at hmem
    simp only [Bool.and_eq_true, decide_eq_true_eq] at h
    exact ⟨i, j, hmem.1, hmem.2, h.1.1, h.1.2, h.2⟩
  · rintro ⟨i, j, hi, hj, hb, hc, hin⟩
    refine ⟨(i, j), (mem_cells i j).mpr ⟨hi, hj⟩, ?_⟩
    simp only [Bool.and_eq_true, decide_eq_true_eq]
    exact ⟨⟨hb, hc⟩, hin⟩

/-- C18: on an initialised maze (`clear == 0`), if after the movement update the
ball lies strictly inside the bounds of some wall cell, `handle_labyrinth`
returns 0 (lost), whether or not the ball also lies inside the goal cell; and it
returns 1 (won) only when the ball lies in no wall cell and lies inside the goal
cell. -/
theorem wall_checked_before_goal (F : FloatOps) (ax ay : ℚ) (m : Maze) (hc : m.clear = 0) :
    ((∃ i j, i < 6 ∧ j < 6 ∧ blk (move_ball F ax ay m).blocks i j = 0 ∧
        16 * i < (move_ball F ax ay m).ball_x ∧ (move_ball F ax ay m).ball_x < 16 * (i + 1) ∧
        96 < (move_ball F ax ay m).ball_y + 16 * (j + 1) ∧
        (move_ball F ax ay m).ball_y + 16 * j < 96) →
      (handle_labyrinth F ax ay m).1 = 0) ∧
    ((handle_labyrinth F ax ay m).1 = 1 →
      (∀ i j, i < 6 → j < 6 → blk (move_ball F ax ay m).blocks i j = 0 →
        ¬ (16 * i < (move_ball F ax ay m).ball_x ∧ (move_ball F ax ay m).ball_x < 16 * (i + 1) ∧
          96 < (move_ball F ax ay m).ball_y + 16 * (j + 1) ∧
          (move_ball F ax ay m).ball_y + 16 * j < 96)) ∧
      16 * m.end_i < (move_ball F ax ay m).ball_x ∧
      (move_ball F ax ay m).ball_x < 16 * (m.end_i + 1) ∧
      96 < (move_ball F ax ay m).ball_y + 16 * (m.end_j + 1) ∧
      (move_ball F ax ay m).ball_y + 16 * m.end_j < 96) := by
  obtain ⟨-, hei, hej, hcl⟩ := move_ball_frame F ax ay m
  constructor
  · rintro ⟨i, j, hi, hj, hb, hin⟩
    have hw : wall_hit (move_ball F ax ay m) = true :=
      (wall_hit_iff _).mpr ⟨i, j, hi, hj, hb, hcl.trans hc, (inside_iff _ _ _ _).mpr hin⟩
    simp [handle_labyrinth, hw]
  · intro h1
    unfold handle_labyrinth at h1
    by_cases hw : wall_hit (move_ball F ax ay m) = true
    · simp [hw] at h1
    · simp only [hw] at h1
      by_cases hg : inside (move_ball F ax ay m).ball_x (move_ball F ax ay m).ball_y
          (move_ball F ax ay m).end_i (move_ball F ax ay m).end_j = true
      · refine ⟨fun i j hi hj hb hin => hw ?_, ?_⟩
        · exact (wall_hit_iff _).mpr
            ⟨i, j, hi, hj, hb, hcl.trans hc, (inside_iff _ _ _ _).mpr hin⟩
        · rw [hei, hej] at hg
          exact (inside_iff _ _ _ _).mp hg
      · simp [hg] at h1

/-- Witness for C18: a wall cell that is also the goal cell; the ball inside it
loses.  The grid has the single accessible cell `(0, 2)`, the goal is `(1, 2)`
and the ball is at `(24, 56)`. -/
theorem wall_checked_before_goal_witness :
    (Maze.mk 24 56 1 2 0 init_blocks).clear = 0 ∧
    (∃ i j, i < 6 ∧ j < 6 ∧
        blk (move_ball exact_ops 0 0 (Maze.mk 24 56 1 2 0 init_blocks)).blocks i j = 0 ∧
        16 * i < (move_ball exact_ops 0 0 (Maze.mk 24 56 1 2 0 init_blocks)).ball_x ∧
        (move_ball exact_ops 0 0 (Maze.mk 24 56 1 2 0 init_blocks)).ball_x < 16 * (i + 1) ∧
        96 < (move_ball exact_ops 0 0 (Maze.mk 24 56 1 2 0 init_blocks)).ball_y + 16 * (j + 1) ∧
        (move_ball exact_ops 0 0 (Maze.mk 24 56 1 2 0 init_blocks)).ball_y + 16 * j < 96) ∧
    (handle_labyrinth exact_ops 0 0 (Maze.mk 24 56 1 2 0 init_blocks)).1 = 0 := by
  have hm : move_ball exact_ops 0 0 (Maze.mk 24 56 1 2 0 init_blocks) = Maze.mk 24 56 1 2 0 init_blocks := by
    norm_num [move_ball, exact_ops, trunc]
  have hex : ∃ i j, i < 6 ∧ j < 6 ∧
      blk (move_ball exact_ops 0 0 (Maze.mk 24 56 1 2 0 init_blocks)).blocks i j = 0 ∧
      16 * i < (move_ball exact_ops 0 0 (Maze.mk 24 56 1 2 0 init_blocks)).ball_x ∧
      (move_ball exact_ops 0 0 (Maze.mk 24 56 1 2 0 init_blocks)).ball_x < 16 * (i + 1) ∧
      96 < (move_ball exact_ops 0 0 (Maze.mk 24 56 1 2 0 init_blocks)).ball_y + 16 * (j + 1) ∧
      (move_ball exact_ops 0 0 (Maze.mk 24 56 1 2 0 init_blocks)).ball_y + 16 * j < 96 := by
    rw [hm]
    exact ⟨1, 2, by decide, by decide, by decide, by decide, by decide, by decide, by decide⟩
  exact ⟨rfl, hex, (wall_checked_before_goal exact_ops 0 0 (Maze.mk 24 56 1 2 0 init_blocks) rfl).1 hex⟩

/-- C19: `handle_labyrinth` returns 0, 1 or 2; when it returns 0 (lost) or 1
(won) the ball is at the spawn point `(8, 56)` and `clear` is 1; when it returns
2 `clear` is unchanged; the grid and the goal cell are unchanged in every
case. -/
theorem step_outcome_and_frame (F : FloatOps) (ax ay : ℚ) (m : Maze) :
    ((handle_labyrinth F ax ay m).1 = 0 ∨ (handle_labyrinth F ax ay m).1 = 1 ∨
      (handle_labyrinth F ax ay m).1 = 2) ∧
    ((handle_labyrinth F ax ay m).1 = 0 ∨ (handle_labyrinth F ax ay m).1 = 1 →
      (handle_labyrinth F ax ay m).2.ball_x = 8 ∧ (handle_labyrinth F ax ay m).2.ball_y = 56 ∧
      (handle_labyrinth F ax ay m).2.clear = 1) ∧
    ((handle_labyrinth F ax ay m).1 = 2 → (handle_labyrinth F ax ay m).2.clear = m.clear) ∧
    (handle_labyrinth F ax ay m).2.blocks = m.blocks ∧
    (handle_labyrinth F ax ay m).2.end_i = m.end_i ∧
    (handle_labyrinth F ax ay m).2.end_j = m.end_j := by
  obtain ⟨hb, hei, hej, hcl⟩ := move_ball_frame F ax ay m
  unfold handle_labyrinth
  by_cases hw : wall_hit (move_ball F ax ay m) = true
  · simp [hw, hb, hei, hej]
  · by_cases hg : inside (move_ball F ax ay m).ball_x (move_ball F ax ay m).ball_y
        (move_ball F ax ay m).end_i (move_ball F ax ay m).end_j = true
    · rw [hei, hej] at hg
      simp [hw, hg, hb, hei, hej]
    · rw [hei, hej] at hg
      simp [hw, hg, hb, hei, hej, hcl]

/-- Witness for C19: the ball at spawn in a grid whose only accessible cell is
the start cell, with goal `(1, 2)`, pushed right by 10 into a wall. -/
theorem step_outcome_and_frame_witness :
    ((handle_labyrinth exact_ops 10 0 (Maze.mk 8 56 1 2 0 init_blocks)).1 = 0 ∨
      (handle_labyrinth exact_ops 10 0 (Maze.mk 8 56 1 2 0 init_blocks)).1 = 1) ∧
    (handle_labyrinth exact_ops 10 0 (Maze.mk 8 56 1 2 0 init_blocks)).2.ball_x = 8 ∧
    (handle_labyrinth exact_ops 10 0 (Maze.mk 8 56 1 2 0 init_blocks)).2.ball_y = 56 ∧
    (handle_labyrinth exact_ops 10 0 (Maze.mk 8 56 1 2 0 init_blocks)).2.clear = 1 := by
  have hm : move_ball exact_ops 10 0 (Maze.mk 8 56 1 2 0 init_blocks) = Maze.mk 18 56 1 2 0 init_blocks := by
    have h1 : ⌊(10 : ℚ)⌋ = 10 := Int.floor_eq_iff.mpr ⟨by norm_num, by norm_num⟩
    have h2 : ⌊(8 : ℚ) + 10⌋ = 18 := Int.floor_eq_iff.mpr ⟨by norm_num, by norm_num⟩
    norm_num [move_ball, exact_ops, trunc, h1, h2, uint8]
    exact ⟨rfl, rfl⟩
  have h0 : (handle_labyrinth exact_ops 10 0 (Maze.mk 8 56 1 2 0 init_blocks)).1 = 0 := by
    unfold handle_labyrinth
    rw [hm]
    decide
  exact ⟨Or.inl h0,
    (step_outcome_and_frame exact_ops 10 0 (Maze.mk 8 56 1 2 0 init_blocks)).2.1 (Or.inl h0)⟩

theorem trunc_eq_zero (a : ℚ) (h : |a| < 1) : trunc a = 0 := by
  obtain ⟨h1, h2⟩ := abs_lt.mp h
  unfold trunc
  split_ifs with h0
  · exact Int.floor_eq_zero_iff.mpr ⟨h0, h2⟩
  · exact Int.ceil_eq_zero_iff.mpr ⟨h1, le_of_lt (not_le.mp h0)⟩

theorem iabs_lt_one (F : FloatOps) (a : ℚ) (h : |a| < 1) :
    ¬ (((F.iabs a : Int) : ℚ) > 1 / 2) := by
  have hr : |a| < 2 ^ 31 := lt_trans h (by norm_num)
  have h0 : trunc a = 0 := trunc_eq_zero a h
  rw [F.iabs_spec a hr, h0]
  norm_num

theorem iabs_small (F : FloatOps) (a : ℚ) (h : |a| ≤ 1 / 2) :
    ¬ (((F.iabs a : Int) : ℚ) > 1 / 2) :=
  iabs_lt_one F a (lt_of_le_of_lt h (by norm_num))

theorem iabs_large (F : FloatOps) (a : ℚ) (h : 1 ≤ |a|) (hr : |a| < 2 ^ 31) :
    ((F.iabs a : Int) : ℚ) > 1 / 2 := by
  have h1 : (1 : Int) ≤ F.iabs a := by
    rw [F.iabs_spec a hr]
    unfold trunc
    rcases le_abs.mp h with hp | hn
    · have h0 : (0 : ℚ) ≤ a := by linarith
      rw [if_pos h0]
      have : (1 : Int) ≤ ⌊a⌋ := Int.le_floor.mpr (by exact_mod_cast hp)
      exact le_trans this (le_abs_self _)
    · have h0 : ¬ (0 : ℚ) ≤ a := by linarith
      rw [if_neg h0]
      have : ⌈a⌉ ≤ (-1 : Int) := Int.ceil_le.mpr (by push_cast; linarith)
      exact le_trans (by omega) (neg_le_abs _)
  have h2 : (1 : ℚ) ≤ ((F.iabs a : Int) : ℚ) := by exact_mod_cast h1
  linarith

theorem uint8_trunc (q : ℚ) (h0 : 0 < q) (h1 : q < 96) :
    ((uint8 (trunc q) : Nat) : Int) = ⌊q⌋ ∧ uint8 (trunc q) ≤ 95 := by
  have ht : trunc q = ⌊q⌋ := by
    unfold trunc
    rw [if_pos (le_of_lt h0)]
  have hlo : (0 : Int) ≤ ⌊q⌋ := Int.floor_nonneg.mpr (le_of_lt h0)
  have hhi : ⌊q⌋ < 96 := Int.floor_lt.mpr (by exact_mod_cast h1)
  rw [ht]
  unfold uint8
  omega

theorem move_ball_small (F : FloatOps) (ax ay : ℚ) (m : Maze) (hx : |ax| ≤ 1 / 2)
    (hy : |ay| ≤ 1 / 2) : move_ball F ax ay m = m := by
  unfold move_ball
  rw [if_neg]
  rintro (h | h)
  · exact iabs_small F ax hx h
  · exact iabs_small F ay hy h

/-- Counterexample to C20 as stated, for the floating-point operations of the
target as for any other.  With the ball at `x = 1` and `(ax, ay) = (-1/2, 1)`:
`|ay| > 0.5` and `0 < x + ax < 96` (the sum `1/2` is a `float`, so it is not
rounded), yet the committed `ball_x` is 0, which is neither `x + ax = 1/2` nor
strictly inside `(0, 96)`.  With the ball at `x = 8` and `(ax, ay) = (3/4, 0)`:
`|ax| > 0.5` and `0 < x + ax < 96`, yet `ball_x` stays 8, because `abs` is
applied to the accelerations converted to `int`, which are both 0. -/
theorem move_ball_not_exact :
    ((|(-1 / 2 : ℚ)| > 1 / 2 ∨ |(1 : ℚ)| > 1 / 2) ∧
      (0 : ℚ) < ((1 : Nat) : ℚ) + (-1 / 2) ∧ ((1 : Nat) : ℚ) + (-1 / 2) < 96 ∧
      ∀ F : FloatOps,
        F.fadd ((1 : Nat) : ℚ) (-1 / 2) = ((1 : Nat) : ℚ) + (-1 / 2) ∧
        (move_ball F (-1 / 2) 1 (Maze.mk 1 56 0 0 0 init_blocks)).ball_x = 0 ∧
        (((move_ball F (-1 / 2) 1 (Maze.mk 1 56 0 0 0 init_blocks)).ball_x : Nat) : ℚ) ≠
          ((1 : Nat) : ℚ) + (-1 / 2) ∧
        ¬ (0 < (move_ball F (-1 / 2) 1 (Maze.mk 1 56 0 0 0 init_blocks)).ball_x)) ∧
    ((|(3 / 4 : ℚ)| > 1 / 2 ∨ |(0 : ℚ)| > 1 / 2) ∧
      (0 : ℚ) < ((8 : Nat) : ℚ) + 3 / 4 ∧ ((8 : Nat) : ℚ) + 3 / 4 < 96 ∧
      ∀ F : FloatOps,
        (move_ball F (3 / 4) 0 (Maze.mk 8 56 0 0 0 init_blocks)).ball_x = 8 ∧
        (((move_ball F (3 / 4) 0 (Maze.mk 8 56 0 0 0 init_blocks)).ball_x : Nat) : ℚ) ≠
          ((8 : Nat) : ℚ) + 3 / 4) := by
  have hs : ∀ F : FloatOps,
      F.fadd ((1 : Nat) : ℚ) (-1 / 2) = ((1 : Nat) : ℚ) + (-1 / 2) := fun F =>
    F.fadd_exact _ _ ⟨512, by norm_num⟩ (by norm_num [abs_le])
  have e1 : ∀ F : FloatOps,
      (move_ball F (-1 / 2) 1 (Maze.mk 1 56 0 0 0 init_blocks)).ball_x = 0 := by
    intro F
    have h1 : ((F.iabs 1 : Int) : ℚ) > 1 / 2 :=
      iabs_large F 1 (by norm_num) (by norm_num)
    have hx : (0 : ℚ) < F.fadd ((1 : Nat) : ℚ) (-1 / 2) ∧
        F.fadd ((1 : Nat) : ℚ) (-1 / 2) < 96 := by
      rw [hs F]; norm_num
    have hf : ⌊F.fadd ((1 : Nat) : ℚ) (-1 / 2)⌋ = 0 := by
      rw [hs F]
      exact Int.floor_eq_zero_iff.mpr ⟨by norm_num, by norm_num⟩
    have hu := (uint8_trunc (F.fadd ((1 : Nat) : ℚ) (-1 / 2)) hx.1 hx.2).1
    rw [hf] at hu
    unfold move_ball
    rw [if_pos (Or.inr h1)]
    dsimp only
    rw [if_pos hx]
    split_ifs <;> exact_mod_cast hu
  have e2 : ∀ F : FloatOps,
      (move_ball F (3 / 4) 0 (Maze.mk 8 56 0 0 0 init_blocks)).ball_x = 8 := by
    intro F
    have h1 : ¬ (((F.iabs (3 / 4) : Int) : ℚ) > 1 / 2) :=
      iabs_lt_one F (3 / 4) (by norm_num [abs_lt])
    have h2 : ¬ (((F.iabs 0 : Int) : ℚ) > 1 / 2) :=
      iabs_small F 0 (by norm_num)
    unfold move_ball
    rw [if_neg (by rintro (h | h); exact h1 h; exact h2 h)]
  refine ⟨⟨Or.inr (by norm_num), by norm_num, by norm_num, fun F => ⟨hs F, e1 F, ?_, ?_⟩⟩,
    ⟨Or.inl (by norm_num [abs_of_pos]), by norm_num, by norm_num, fun F => ⟨e2 F, ?_⟩⟩⟩
  · rw [e1 F]; norm_num
  · rw [e1 F]; decide
  · rw [e2 F]; norm_num

/-- C20 amended: the movement statements of `handle_labyrinth`, with `sx` and `sy`
the `float` sums `ball_x + ax` and `ball_y + ay` as the target computes them
(whatever the rounding).  If `|ax| <= 0.5` and `|ay| <= 0.5` the position is
unchanged.  If `ax` and `ay` are in the range of `int` (absolute value below
`2 ^ 31`) and `|ax| >= 1` or `|ay| >= 1`, then `ball_x` becomes the integer part
of `sx` exactly when `0 < sx < 96` (otherwise it is unchanged) and,
independently, `ball_y` becomes the integer part of `sy` exactly when
`0 < sy < 96`; a committed coordinate is an integer between 0 and 95.  The
grid, the goal cell and `clear` are unchanged. -/
theorem move_ball_truncates (F : FloatOps) (ax ay : ℚ) (m : Maze) :
    (|ax| ≤ 1 / 2 ∧ |ay| ≤ 1 / 2 → move_ball F ax ay m = m) ∧
    (|ax| < 2 ^ 31 ∧ |ay| < 2 ^ 31 ∧ (1 ≤ |ax| ∨ 1 ≤ |ay|) →
      ((0 < F.fadd (m.ball_x : ℚ) ax ∧ F.fadd (m.ball_x : ℚ) ax < 96 →
          ((move_ball F ax ay m).ball_x : Int) = ⌊F.fadd (m.ball_x : ℚ) ax⌋ ∧
          (move_ball F ax ay m).ball_x ≤ 95) ∧
        (¬ (0 < F.fadd (m.ball_x : ℚ) ax ∧ F.fadd (m.ball_x : ℚ) ax < 96) →
          (move_ball F ax ay m).ball_x = m.ball_x)) ∧
      ((0 < F.fadd (m.ball_y : ℚ) ay ∧ F.fadd (m.ball_y : ℚ) ay < 96 →
          ((move_ball F ax ay m).ball_y : Int) = ⌊F.fadd (m.ball_y : ℚ) ay⌋ ∧
          (move_ball F ax ay m).ball_y ≤ 95) ∧
        (¬ (0 < F.fadd (m.ball_y : ℚ) ay ∧ F.fadd (m.ball_y : ℚ) ay < 96) →
          (move_ball F ax ay m).ball_y = m.ball_y))) ∧
    (move_ball F ax ay m).blocks = m.blocks ∧ (move_ball F ax ay m).end_i = m.end_i ∧
    (move_ball F ax ay m).end_j = m.end_j ∧ (move_ball F ax ay m).clear = m.clear := by
  refine ⟨?_, ?_, move_ball_frame F ax ay m⟩
  · rintro ⟨hx, hy⟩
    exact move_ball_small F ax ay m hx hy
  · rintro ⟨hrx, hry, hlarge⟩
    have hcond : ((F.iabs ax : Int) : ℚ) > 1 / 2 ∨ ((F.iabs ay : Int) : ℚ) > 1 / 2 := by
      rcases hlarge with h | h
      · exact Or.inl (iabs_large F ax h hrx)
      · exact Or.inr (iabs_large F ay h hry)
    unfold move_ball
    rw [if_pos hcond]
    dsimp only
    refine ⟨⟨fun hx => ?_, fun hx => ?_⟩, ⟨fun hy => ?_, fun hy => ?_⟩⟩
    · have hu := uint8_trunc _ hx.1 hx.2
      rw [if_pos hx]
      split_ifs <;> exact hu
    · rw [if_neg hx]
      split_ifs <;> rfl
    · have hu := uint8_trunc _ hy.1 hy.2
      split_ifs <;> exact hu
    · split_ifs <;> rfl

/-- Witness for C20 amended: the ball at spawn pushed by `(3/2, -1)` moves to
`(9, 55)`, and an acceleration of `(1/2, -1/2)` leaves it in place (the sums
`8 + 3/2` and `56 - 1` are values of type `float`). -/
theorem move_ball_truncates_witness :
    (|(1 / 2 : ℚ)| ≤ 1 / 2 ∧ |(-1 / 2 : ℚ)| ≤ 1 / 2) ∧
    move_ball exact_ops (1 / 2) (-1 / 2) maze_start = maze_start ∧
    (|(3 / 2 : ℚ)| < 2 ^ 31 ∧ |(-1 : ℚ)| < 2 ^ 31 ∧ (1 ≤ |(3 / 2 : ℚ)| ∨ 1 ≤ |(-1 : ℚ)|)) ∧
    (0 < exact_ops.fadd (maze_start.ball_x : ℚ) (3 / 2) ∧
      exact_ops.fadd (maze_start.ball_x : ℚ) (3 / 2) < 96) ∧
    ((move_ball exact_ops (3 / 2) (-1) maze_start).ball_x : Int) =
      ⌊exact_ops.fadd (maze_start.ball_x : ℚ) (3 / 2)⌋ ∧
    (move_ball exact_ops (3 / 2) (-1) maze_start).ball_x ≤ 95 := by
  have h1 : |(1 / 2 : ℚ)| ≤ 1 / 2 ∧ |(-1 / 2 : ℚ)| ≤ 1 / 2 := by
    constructor <;> rw [abs_le] <;> norm_num
  have h2 : |(3 / 2 : ℚ)| < 2 ^ 31 ∧ |(-1 : ℚ)| < 2 ^ 31 ∧
      (1 ≤ |(3 / 2 : ℚ)| ∨ 1 ≤ |(-1 : ℚ)|) :=
    ⟨by rw [abs_lt]; norm_num, by norm_num, Or.inr (by norm_num)⟩
  have h3 : 0 < exact_ops.fadd (maze_start.ball_x : ℚ) (3 / 2) ∧
      exact_ops.fadd (maze_start.ball_x : ℚ) (3 / 2) < 96 := by
    norm_num [maze_start, exact_ops]
  exact ⟨h1, (move_ball_truncates exact_ops (1 / 2) (-1 / 2) maze_start).1 h1, h2, h3,
    ((move_ball_truncates exact_ops (3 / 2) (-1) maze_start).2.1 h2).1.1 h3⟩

/-! ## The maze: generation -/

theorem candidate_shape (i j r : Nat) :
    candidate i j r = ((i : Int), (j : Int) + 1) ∨ candidate i j r = ((i : Int) + 1, (j : Int)) ∨
      candidate i j r = ((i : Int), (j : Int) - 1) := by
  unfold candidate
  split <;> simp

theorem resample_spec (i j : Nat) : ∀ (rs : List Nat) (c c1 : Int × Int) (rs1 : List Nat),
    (c = ((i : Int), (j : Int) + 1) ∨ c = ((i : Int) + 1, (j : Int)) ∨
      c = ((i : Int), (j : Int) - 1)) →
    resample i j c rs = some (c1, rs1) →
    out_of_bounds c1 = false ∧
      (c1 = ((i : Int), (j : Int) + 1) ∨ c1 = ((i : Int) + 1, (j : Int)) ∨
        c1 = ((i : Int), (j : Int) - 1)) := by
  intro rs
  induction rs with
  | nil =>
    intro c c1 rs1 hc h
    unfold resample at h
    split_ifs at h with ho
    simp only [Option.some.injEq, Prod.mk.injEq] at h
    obtain ⟨rfl, -⟩ := h
    exact ⟨by simpa using ho, hc⟩
  | cons r rs ih =>
    intro c c1 rs1 hc h
    unfold resample at h
    split_ifs at h with ho
    · exact ih _ _ _ (candidate_shape i j r) h
    · simp only [Option.some.injEq, Prod.mk.injEq] at h
      obtain ⟨rfl, -⟩ := h
      exact ⟨by simpa using ho, hc⟩

theorem accepted_cell (i j : Nat) (c : Int × Int) (ho : out_of_bounds c = false)
    (hs : c = ((i : Int), (j : Int) + 1) ∨ c = ((i : Int) + 1, (j : Int)) ∨
      c = ((i : Int), (j : Int) - 1)) :
    walk_move (i, j) (c.1.toNat, c.2.toNat) ∧ c.1.toNat < 6 ∧ c.2.toNat < 6 := by
  unfold out_of_bounds at ho
  rw [decide_eq_false_iff_not] at ho
  push_neg at ho
  obtain ⟨h1, h2, h3, h4⟩ := ho
  unfold walk_move
  rcases hs with rfl | rfl | rfl
  · simp only at h1 h2 h3 h4
    refine ⟨Or.inl ?_, by omega, by omega⟩
    simp only [Prod.mk.injEq]
    omega
  · simp only at h1 h2 h3 h4
    refine ⟨Or.inr (Or.inl ?_), by omega, by omega⟩
    simp only [Prod.mk.injEq]
    omega
  · simp only at h1 h2 h3 h4
    refine ⟨Or.inr (Or.inr ?_), by omega, by omega⟩
    simp only
    omega

theorem blk_set_blk (b : List Nat) (hb : b.length = 36) (i j a c v : Nat)
    (hi : i < 6) (hj : j < 6) (ha : a < 6) (hc : c < 6) :
    blk (set_blk b i j v) a c = if (a, c) = (i, j) then v else blk b a c := by
  unfold blk set_blk
  rw [List.getD_eq_getElem?_getD, List.getD_eq_getElem?_getD, List.getElem?_set]
  by_cases h : (a, c) = (i, j)
  · simp only [Prod.mk.injEq] at h
    obtain ⟨rfl, rfl⟩ := h
    have hlt : 6 * a + c < b.length := by omega
    simp [hlt]
  · have hne : 6 * i + j ≠ 6 * a + c := by
      intro he
      apply h
      simp only [Prod.mk.injEq]
      omega
    simp [h, hne]

theorem countP_set_le (p : Nat → Bool) (l : List Nat) (k v : Nat) :
    (l.set k v).countP p ≤ l.countP p + 1 := by
  by_cases h : k < l.length
  · rw [List.countP_set p l k v h]
    split_ifs <;> omega
  · rw [List.set_eq_of_length_le (not_lt.mp h)]
    omega

/-- The invariant of the walk loop: a completed walk of `n` moves from an
in-bounds cell visits a chain of `n` in-bounds cells, each the up, right or
down neighbour of the one before; it ends at `(end_i, end_j)`; the accessible
cells afterwards are those accessible before and the visited ones. -/
theorem walk_spec : ∀ (n i j : Nat) (m m1 : Maze) (rs : List Nat),
    i < 6 → j < 6 → m.blocks.length = 36 → walk n i j m rs = some m1 →
    ∃ pos : List (Nat × Nat), pos.length = n ∧ List.Chain walk_move (i, j) pos ∧
      (∀ p ∈ pos, p.1 < 6 ∧ p.2 < 6) ∧
      (0 < n → ((i, j) :: pos).getLast? = some (m1.end_i, m1.end_j)) ∧
      m1.blocks.length = 36 ∧
      (∀ a c, a < 6 → c < 6 → (blk m1.blocks a c ≠ 0 ↔ blk m.blocks a c ≠ 0 ∨ (a, c) ∈ pos)) ∧
      accessible_count m1 ≤ accessible_count m + n ∧
      m1.ball_x = m.ball_x ∧ m1.ball_y = m.ball_y ∧ m1.clear = m.clear := by
  intro n
  induction n with
  | zero =>
    intro i j m m1 rs hi hj hb h
    simp only [walk, Option.some.injEq] at h
    subst h
    exact ⟨[], rfl, List.Chain.nil, by simp, by simp, hb, by simp, by simp, rfl, rfl, rfl⟩
  | succ n ih =>
    intro i j m m1 rs hi hj hb h
    cases rs with
    | nil => simp [walk] at h
    | cons r rs1 =>
      simp only [walk] at h
      cases hres : resample i j (candidate i j r) rs1 with
      | none => simp [hres] at h
      | some res =>
        obtain ⟨c, rs2⟩ := res
        simp only [hres] at h
        obtain ⟨ho, hs⟩ := resample_spec i j rs1 _ c rs2 (candidate_shape i j r) hres
        obtain ⟨hmove, hq1, hq2⟩ := accepted_cell i j c ho hs
        have hb1 : (set_blk m.blocks c.1.toNat c.2.toNat 1).length = 36 := by
          simp [set_blk, hb]
        obtain ⟨pos, hlen, hchain, hbound, hlast, hb2, hblk, hcount, hx, hy, hcl⟩ :=
          ih c.1.toNat c.2.toNat _ m1 rs2 hq1 hq2 hb1 h
        refine ⟨(c.1.toNat, c.2.toNat) :: pos, by simp [hlen], List.Chain.cons hmove hchain,
          ?_, ?_, hb2, ?_, ?_, hx, hy, hcl⟩
        · intro p hp
          rcases List.mem_cons.mp hp with rfl | hp
          · exact ⟨hq1, hq2⟩
          · exact hbound p hp
        · intro _
          rw [List.getLast?_cons_cons]
          rcases Nat.eq_zero_or_pos n with h0 | hpos
          · subst h0
            have hnil : pos = [] := List.length_eq_zero.mp hlen
            subst hnil
            simp only [walk, Option.some.injEq] at h
            subst h
            simp
          · exact hlast hpos
        · intro a e ha he
          rw [hblk a e ha he]
          simp only at hblk ⊢
          rw [blk_set_blk m.blocks hb _ _ a e 1 hq1 hq2 ha he]
          by_cases hae : (a, e) = (c.1.toNat, c.2.toNat)
          · simp [hae]
          · simp [hae]
        · have h1 : accessible_count
              { m with
                blocks := set_blk m.blocks c.1.toNat c.2.toNat 1
                end_i := c.1.toNat
                end_j := c.2.toNat } ≤ accessible_count m + 1 := by
            unfold accessible_count set_blk
            exact countP_set_le _ _ _ _
          omega

theorem chain_prefix_to {α : Type} {R : α → α → Prop} : ∀ (l : List α) (a p : α),
    List.Chain R a l → p ∈ a :: l →
    ∃ path : List α, path.head? = some a ∧ path.getLast? = some p ∧ List.Chain' R path ∧
      (∀ x ∈ path, x ∈ a :: l) ∧ path.length ≤ l.length + 1 := by
  intro l
  induction l with
  | nil =>
    intro a p _ hp
    have hpa : p = a := by simpa using hp
    subst hpa
    exact ⟨[p], rfl, rfl, List.chain'_singleton p, by simp, by simp⟩
  | cons b l ih =>
    intro a p hch hp
    by_cases hpa : p = a
    · subst hpa
      exact ⟨[p], rfl, rfl, List.chain'_singleton p, by simp, by simp⟩
    · obtain ⟨hab, hrest⟩ := List.chain_cons.mp hch
      have hp1 : p ∈ b :: l := by
        rcases List.mem_cons.mp hp with h | h
        · exact absurd h hpa
        · exact h
      obtain ⟨path, hhead, hlast, hchain, hmem, hlen⟩ := ih b p hrest hp1
      cases path with
      | nil => simp at hhead
      | cons y ys =>
        have hy : y = b := by simpa using hhead
        subst hy
        refine ⟨a :: y :: ys, rfl, ?_, ?_, ?_, ?_⟩
        · rw [List.getLast?_cons_cons]
          exact hlast
        · exact List.chain'_cons.mpr ⟨hab, hchain⟩
        · intro x hx
          rcases List.mem_cons.mp hx with h | h
          · rw [h]; exact List.mem_cons_self _ _
          · exact List.mem_cons_of_mem _ (hmem x h)
        · simp only [List.length_cons] at hlen ⊢
          omega

theorem walk_move_adjacent (p q : Nat × Nat) (h : walk_move p q) : adjacent4 p q := by
  unfold walk_move at h
  unfold adjacent4
  rcases h with h | h | ⟨h1, h2⟩
  · subst h; simp
  · subst h; simp
  · exact Or.inl ⟨h1.symm, Or.inr h2⟩

theorem init_blocks_spec :
    init_blocks.length = 36 ∧
      ∀ a, a < 6 → ∀ c, c < 6 → (blk init_blocks a c ≠ 0 ↔ (a, c) = (0, 2)) := by
  decide

/-- What a completed generation establishes: the 30 cells visited after the start
cell `(0, 2)`, the goal cell as the last of them, and the accessible cells. -/
theorem draw_labyrinth_spec (rs : List Nat) (m m1 : Maze) (hc : m.clear ≠ 0)
    (h : draw_labyrinth rs m = some m1) :
    ∃ pos : List (Nat × Nat), pos.length = 30 ∧ List.Chain walk_move (0, 2) pos ∧
      (∀ p ∈ (0, 2) :: pos, p.1 < 6 ∧ p.2 < 6) ∧
      ((0, 2) :: pos).getLast? = some (m1.end_i, m1.end_j) ∧
      (∀ p : Nat × Nat, accessible m1 p ↔ p ∈ (0, 2) :: pos) ∧
      accessible_count m1 ≤ 31 ∧ m1.clear = 0 ∧
      m1.ball_x = m.ball_x ∧ m1.ball_y = m.ball_y := by
  unfold draw_labyrinth at h
  rw [if_pos hc] at h
  cases hw : walk 30 0 2 { m with blocks := init_blocks } rs with
  | none => simp [hw] at h
  | some m2 =>
    simp only [hw, Option.map_some', Option.some.injEq] at h
    subst h
    obtain ⟨hilen, hinit⟩ := init_blocks_spec
    obtain ⟨pos, hlen, hchain, hbound, hlast, -, hblk, hcount, hx, hy, -⟩ :=
      walk_spec 30 0 2 { m with blocks := init_blocks } m2 rs (by decide) (by decide) hilen hw
    have hb : ∀ p ∈ (0, 2) :: pos, p.1 < 6 ∧ p.2 < 6 := by
      intro p hp
      rcases List.mem_cons.mp hp with rfl | hp
      · exact ⟨by decide, by decide⟩
      · exact hbound p hp
    refine ⟨pos, hlen, hchain, hb, hlast (by decide), ?_, ?_, rfl, hx, hy⟩
    · rintro ⟨a, c⟩
      constructor
      · rintro ⟨ha, hc1, hne⟩
        simp only at ha hc1 hne
        rcases (hblk a c ha hc1).mp hne with h0 | hp
        · exact List.mem_cons.mpr (Or.inl ((hinit a ha c hc1).mp h0))
        · exact List.mem_cons_of_mem _ hp
      · intro hp
        obtain ⟨ha, hc1⟩ := hb (a, c) hp
        refine ⟨ha, hc1, (hblk a c ha hc1).mpr ?_⟩
        rcases List.mem_cons.mp hp with h0 | hp
        · exact Or.inl ((hinit a ha c hc1).mpr h0)
        · exact Or.inr hp
    · have h1 : accessible_count { m with blocks := init_blocks } = 1 := by
        show List.countP (fun v => decide (v ≠ 0)) init_blocks = 1
        decide
      have h2 : accessible_count { m2 with clear := 0 } = accessible_count m2 := rfl
      omega

theorem generated_path_to (rs : List Nat) (m m1 : Maze) (hc : m.clear ≠ 0)
    (h : draw_labyrinth rs m = some m1) (p : Nat × Nat) (hp : accessible m1 p) :
    ∃ path : List (Nat × Nat), is_path m1 (0, 2) p path ∧ path.length ≤ 31 := by
  obtain ⟨pos, hlen, hchain, -, -, hacc, -, -, -, -⟩ := draw_labyrinth_spec rs m m1 hc h
  obtain ⟨path, hhead, hlast, hch, hmem, hle⟩ :=
    chain_prefix_to pos (0, 2) p hchain ((hacc p).mp hp)
  refine ⟨path, ⟨hhead, hlast, hch.imp walk_move_adjacent, fun x hx => ?_⟩, by omega⟩
  exact (hacc x).mpr (hmem x hx)

/-- C16: when generation runs and completes on the draws `rs`, the start cell
`(0, 2)` and the goal cell are accessible, and every accessible cell of the grid
is joined to `(0, 2)` by a chain of side-sharing accessible cells. -/
theorem generated_maze_connected (rs : List Nat) (m m1 : Maze) (hc : m.clear ≠ 0)
    (h : draw_labyrinth rs m = some m1) :
    accessible m1 (0, 2) ∧ accessible m1 (m1.end_i, m1.end_j) ∧
      blk m1.blocks m1.end_i m1.end_j ≠ 0 ∧
      ∀ p : Nat × Nat, accessible m1 p → ∃ path : List (Nat × Nat), is_path m1 (0, 2) p path := by
  obtain ⟨pos, -, -, -, hlast, hacc, -, -, -, -⟩ := draw_labyrinth_spec rs m m1 hc h
  have hgoal : accessible m1 (m1.end_i, m1.end_j) :=
    (hacc _).mpr (List.mem_of_getLast?_eq_some hlast)
  refine ⟨(hacc _).mpr (List.mem_cons_self _ _), hgoal, hgoal.2.2, fun p hp => ?_⟩
  obtain ⟨path, hpath, -⟩ := generated_path_to rs m m1 hc h p hp
  exact ⟨path, hpath⟩

/-- Witness for C16: the maze generated from the draws up, right, down, down and
then up and down in turn. -/
theorem generated_maze_connected_witness :
    maze_start.clear ≠ 0 ∧
    draw_labyrinth ([0, 1, 2, 2] ++ (List.replicate 13 [0, 2]).flatten) maze_start =
      some (Maze.mk 8 56 1 1 0
        [0, 0, 1, 1, 0, 0, 0, 1, 1, 1, 0, 0, 0, 0, 0, 0, 0, 0,
         0, 0, 0, 0, 0, 0, 0, 0, 0, 0, 0, 0, 0, 0, 0, 0, 0, 0]) ∧
    accessible (Maze.mk 8 56 1 1 0
        [0, 0, 1, 1, 0, 0, 0, 1, 1, 1, 0, 0, 0, 0, 0, 0, 0, 0,
         0, 0, 0, 0, 0, 0, 0, 0, 0, 0, 0, 0, 0, 0, 0, 0, 0, 0]) (0, 2) ∧
    ∀ p : Nat × Nat, accessible (Maze.mk 8 56 1 1 0
        [0, 0, 1, 1, 0, 0, 0, 1, 1, 1, 0, 0, 0, 0, 0, 0, 0, 0,
         0, 0, 0, 0, 0, 0, 0, 0, 0, 0, 0, 0, 0, 0, 0, 0, 0, 0]) p →
      ∃ path : List (Nat × Nat), is_path (Maze.mk 8 56 1 1 0
        [0, 0, 1, 1, 0, 0, 0, 1, 1, 1, 0, 0, 0, 0, 0, 0, 0, 0,
         0, 0, 0, 0, 0, 0, 0, 0, 0, 0, 0, 0, 0, 0, 0, 0, 0, 0]) (0, 2) p path :=
  ⟨by decide, by decide,
    (generated_maze_connected ([0, 1, 2, 2] ++ (List.replicate 13 [0, 2]).flatten) maze_start
      _ (by decide) (by decide)).1,
    (generated_maze_connected ([0, 1, 2, 2] ++ (List.replicate 13 [0, 2]).flatten) maze_start
      _ (by decide) (by decide)).2.2.2⟩

/-- Counterexample to C17 as stated: on the draws up, right, down, down and then
up and down in turn, generation completes with goal cell `(1, 1)`, the cells
`(0, 2)`, `(0, 3)`, `(1, 3)`, `(1, 2)` form an accessible square, and two
different chains of distinct side-sharing accessible cells join the start cell
to the goal cell. -/
theorem generated_maze_two_paths :
    ∃ m1 : Maze,
      draw_labyrinth ([0, 1, 2, 2] ++ (List.replicate 13 [0, 2]).flatten) maze_start = some m1 ∧
      (m1.end_i, m1.end_j) = (1, 1) ∧
      is_path m1 (0, 2) (m1.end_i, m1.end_j) [(0, 2), (1, 2), (1, 1)] ∧
      is_path m1 (0, 2) (m1.end_i, m1.end_j) [(0, 2), (0, 3), (1, 3), (1, 2), (1, 1)] ∧
      [(0, 2), (1, 2), (1, 1)].Nodup ∧ [(0, 2), (0, 3), (1, 3), (1, 2), (1, 1)].Nodup ∧
      [(0, 2), (1, 2), (1, 1)] ≠ [(0, 2), (0, 3), (1, 3), (1, 2), (1, 1)] ∧
      ¬ ∃! path : List (Nat × Nat), path.Nodup ∧ is_path m1 (0, 2) (m1.end_i, m1.end_j) path := by
  have hp1 : is_path (Maze.mk 8 56 1 1 0
      [0, 0, 1, 1, 0, 0, 0, 1, 1, 1, 0, 0, 0, 0, 0, 0, 0, 0,
       0, 0, 0, 0, 0, 0, 0, 0, 0, 0, 0, 0, 0, 0, 0, 0, 0, 0]) (0, 2) (1, 1)
      [(0, 2), (1, 2), (1, 1)] := by
    refine ⟨rfl, rfl, ?_, by decide⟩
    exact List.Chain.cons (by decide) (List.Chain.cons (by decide) List.Chain.nil)
  have hp2 : is_path (Maze.mk 8 56 1 1 0
      [0, 0, 1, 1, 0, 0, 0, 1, 1, 1, 0, 0, 0, 0, 0, 0, 0, 0,
       0, 0, 0, 0, 0, 0, 0, 0, 0, 0, 0, 0, 0, 0, 0, 0, 0, 0]) (0, 2) (1, 1)
      [(0, 2), (0, 3), (1, 3), (1, 2), (1, 1)] := by
    refine ⟨rfl, rfl, ?_, by decide⟩
    exact List.Chain.cons (by decide) (List.Chain.cons (by decide)
      (List.Chain.cons (by decide) (List.Chain.cons (by decide) List.Chain.nil)))
  refine ⟨Maze.mk 8 56 1 1 0
      [0, 0, 1, 1, 0, 0, 0, 1, 1, 1, 0, 0, 0, 0, 0, 0, 0, 0,
       0, 0, 0, 0, 0, 0, 0, 0, 0, 0, 0, 0, 0, 0, 0, 0, 0, 0],
    by decide, rfl, hp1, hp2, by decide, by decide, by decide, ?_⟩
  rintro ⟨path, -, huniq⟩
  have e1 := huniq [(0, 2), (1, 2), (1, 1)] ⟨by decide, hp1⟩
  have e2 := huniq [(0, 2), (0, 3), (1, 3), (1, 2), (1, 1)] ⟨by decide, hp2⟩
  rw [← e2] at e1
  exact absurd e1 (by decide)

/-- C17 amended: when generation runs and completes on the draws `rs`, at least
one chain of side-sharing accessible cells joins the start cell `(0, 2)` to the
goal cell, one of at most 31 cells, and at most 31 cells of the grid are
accessible. -/
theorem generated_maze_has_path (rs : List Nat) (m m1 : Maze) (hc : m.clear ≠ 0)
    (h : draw_labyrinth rs m = some m1) :
    (∃ path : List (Nat × Nat), is_path m1 (0, 2) (m1.end_i, m1.end_j) path ∧
      path.length ≤ 31) ∧
    accessible_count m1 ≤ 31 := by
  obtain ⟨pos, -, -, -, hlast, hacc, hcount, -, -, -⟩ := draw_labyrinth_spec rs m m1 hc h
  have hgoal : accessible m1 (m1.end_i, m1.end_j) :=
    (hacc _).mpr (List.mem_of_getLast?_eq_some hlast)
  exact ⟨generated_path_to rs m m1 hc h _ hgoal, hcount⟩

/-- Witness for C17 amended: the maze generated from the draws up, right, down,
down and then up and down in turn. -/
theorem generated_maze_has_path_witness :
    maze_start.clear ≠ 0 ∧
    draw_labyrinth ([0, 1, 2, 2] ++ (List.replicate 13 [0, 2]).flatten) maze_start =
      some (Maze.mk 8 56 1 1 0
        [0, 0, 1, 1, 0, 0, 0, 1, 1, 1, 0, 0, 0, 0, 0, 0, 0, 0,
         0, 0, 0, 0, 0, 0, 0, 0, 0, 0, 0, 0, 0, 0, 0, 0, 0, 0]) ∧
    (∃ path : List (Nat × Nat), is_path (Maze.mk 8 56 1 1 0
        [0, 0, 1, 1, 0, 0, 0, 1, 1, 1, 0, 0, 0, 0, 0, 0, 0, 0,
         0, 0, 0, 0, 0, 0, 0, 0, 0, 0, 0, 0, 0, 0, 0, 0, 0, 0]) (0, 2) (1, 1) path ∧
      path.length ≤ 31) ∧
    accessible_count (Maze.mk 8 56 1 1 0
        [0, 0, 1, 1, 0, 0, 0, 1, 1, 1, 0, 0, 0, 0, 0, 0, 0, 0,
         0, 0, 0, 0, 0, 0, 0, 0, 0, 0, 0, 0, 0, 0, 0, 0, 0, 0]) ≤ 31 :=
  ⟨by decide, by decide,
    generated_maze_has_path ([0, 1, 2, 2] ++ (List.replicate 13 [0, 2]).flatten) maze_start
      (Maze.mk 8 56 1 1 0
        [0, 0, 1, 1, 0, 0, 0, 1, 1, 1, 0, 0, 0, 0, 0, 0, 0, 0,
         0, 0, 0, 0, 0, 0, 0, 0, 0, 0, 0, 0, 0, 0, 0, 0, 0, 0])
      (by decide) (by decide)⟩

/-! ## Further properties of the direction log -/

/-- C21: `empty_all` applied twice gives exactly the state (entries, cursor,
`dir`) that one application gives. -/
theorem empty_all_idempotent (s : State) : empty_all (empty_all s) = empty_all s := rfl

theorem reverse_step_orth (s : State) (h1 : 1 ≤ s.index) (h100 : s.index ≤ 100)
    (horth : log_orthogonal s) :
    ∃ last prior : direction, s.dir_list[s.index - 1]? = some last ∧
      s.dir_list[s.index - 2]? = some prior ∧ orthogonal last ∧ orthogonal prior ∧
      reverse_direction s = some (0, ⟨(reverse_table last prior).1, s.dir_list,
        if (reverse_table last prior).2 then s.index - 2 else s.index - 1⟩) := by
  obtain ⟨dir, l, idx⟩ := s
  simp only [log_orthogonal, entry_orthogonal_iff] at horth
  simp only at h1 h100 horth ⊢
  obtain ⟨n, rfl⟩ : ∃ n, idx = n + 1 := ⟨idx - 1, by omega⟩
  obtain ⟨last, hl, hlo⟩ := horth n (by omega)
  obtain ⟨prior, hp, hpo⟩ := horth (n - 1) (by omega)
  refine ⟨last, prior, by simpa using hl, ?_, hlo, hpo, ?_⟩
  · have : n + 1 - 2 = n - 1 := by omega
    rw [this]
    exact hp
  · have e := reverse_direction_eq dir l n last prior (by omega) hl hp hlo hpo
    have : n + 1 - 2 = n - 1 := by omega
    rw [this]
    simpa using e

theorem drop_take_last (l : List direction) (n : Nat) (last : direction) (hn : 1 ≤ n)
    (h : l[n - 1]? = some last) : (l.take n).drop (n - 1) = [last] := by
  apply List.ext_getElem?
  intro k
  rw [List.getElem?_drop, List.getElem?_take]
  rcases k with _ | k
  · have : n - 1 + 0 < n := by omega
    simp [this, h]
    omega
  · have : ¬ (n - 1 + (k + 1) < n) := by omega
    simp [this]

theorem drop_take_last2 (l : List direction) (n : Nat) (last prior : direction) (hn : 2 ≤ n)
    (h1 : l[n - 1]? = some last) (h2 : l[n - 2]? = some prior) :
    (l.take n).drop (n - 2) = [prior, last] := by
  apply List.ext_getElem?
  intro k
  rw [List.getElem?_drop, List.getElem?_take]
  rcases k with _ | _ | k
  · have : n - 2 + 0 < n := by omega
    simp [this, h2]
    omega
  · have h3 : n - 2 + (0 + 1) < n := by omega
    have h4 : n - 2 + (0 + 1) = n - 1 := by omega
    rw [if_pos h3, h4, h1]
    rfl
  · have : ¬ (n - 2 + (k + 1 + 1) < n) := by omega
    simp [this]

theorem vec_sum_append (a b : List direction) :
    vec_sum (a ++ b) = ((vec_sum a).1 + (vec_sum b).1, (vec_sum a).2 + (vec_sum b).2) := by
  induction a with
  | nil => simp [vec_sum]
  | cons d ds ih =>
    have e : vec_sum (d :: ds ++ b) =
        ((vec d).1 + (vec_sum (ds ++ b)).1, (vec d).2 + (vec_sum (ds ++ b)).2) := rfl
    rw [e, ih]
    simp only [vec_sum]
    ext <;> simp only <;> ring

theorem vec_sum_take_split (l : List direction) (a b : Nat) (hab : a ≤ b) :
    vec_sum (l.take b) =
      ((vec_sum (l.take a)).1 + (vec_sum ((l.take b).drop a)).1,
       (vec_sum (l.take a)).2 + (vec_sum ((l.take b).drop a)).2) := by
  have h : l.take b = l.take a ++ (l.take b).drop a := by
    have := (List.take_append_drop a (l.take b)).symm
    rwa [List.take_take, Nat.min_eq_left hab] at this
  conv_lhs => rw [h]
  exact vec_sum_append _ _

theorem reverse_table_vec (last prior : direction) (hl : orthogonal last)
    (hp : orthogonal prior) :
    (reverse_table last prior).2 = true ∧
        vec (reverse_table last prior).1 = (-((vec prior).1 + (vec last).1),
          -((vec prior).2 + (vec last).2)) ∧ prior ≠ last ∨
      (reverse_table last prior).2 = false ∧
        vec (reverse_table last prior).1 = (-(vec last).1, -(vec last).2) := by
  rcases hl with h | h | h | h <;> rcases hp with h' | h' | h' | h' <;> subst h <;> subst h' <;>
    decide

/-- One reversal step on a log with orthogonal entries below the cursor: it
returns 0, lowers the cursor, keeps the entries, and the replayed direction is
opposite to the sum of the entries between the new and the old cursor. -/
theorem reverse_step_vec (s : State) (h1 : 1 ≤ s.index) (h100 : s.index ≤ 100)
    (horth : log_orthogonal s) :
    ∃ s1 : State, reverse_direction s = some (0, s1) ∧ s1.index < s.index ∧
      s1.dir_list = s.dir_list ∧
      vec s1.dir = (-(vec_sum ((s.dir_list.take s.index).drop s1.index)).1,
        -(vec_sum ((s.dir_list.take s.index).drop s1.index)).2) := by
  obtain ⟨last, prior, hl, hp, hlo, hpo, h⟩ := reverse_step_orth s h1 h100 horth
  refine ⟨_, h, ?_, rfl, ?_⟩
  · simp only
    split_ifs <;> omega
  · rcases reverse_table_vec last prior hlo hpo with ⟨hm, hv, hne⟩ | ⟨hm, hv⟩
    · have h2 : 2 ≤ s.index := by
        by_contra hlt
        have h1' : s.index = 1 := by omega
        rw [h1'] at hl hp
        simp only [Nat.sub_self, Nat.reduceSub] at hl hp
        have : 1 - 2 = 0 := by decide
        rw [hl] at hp
        exact hne (Option.some.inj hp).symm
      simp only [hm, if_true]
      rw [drop_take_last2 s.dir_list s.index last prior h2 hl hp, hv]
      simp [vec_sum]
    · simp only [hm, Bool.false_eq_true, if_false]
      rw [drop_take_last s.dir_list s.index last h1 hl, hv]
      simp [vec_sum]

theorem log_orthogonal_lower (s s1 : State) (horth : log_orthogonal s)
    (hl : s1.dir_list = s.dir_list) (hi : s1.index ≤ s.index) : log_orthogonal s1 := by
  intro k hk
  rw [hl]
  exact horth k (by omega)

/-- Draining a log with orthogonal entries below the cursor `n`: with more than
`n` calls available the replay completes, takes at most `n` replayed directions
before the call that returns 1, and their vectors sum to the opposite of the
sum of the `n` logged entries. -/
theorem drain_spec : ∀ (n : Nat) (s : State) (fuel : Nat), s.index = n → n ≤ 100 →
    log_orthogonal s → n < fuel →
    ∃ ds : List direction, drain fuel s = some ds ∧ ds.length ≤ n ∧
      vec_sum ds = (-(vec_sum (s.dir_list.take n)).1, -(vec_sum (s.dir_list.take n)).2) := by
  intro n
  induction n using Nat.strong_induction_on with
  | _ n ih =>
    intro s fuel hn h100 horth hfuel
    obtain ⟨f, rfl⟩ : ∃ f, fuel = f + 1 := ⟨fuel - 1, by omega⟩
    rcases Nat.eq_zero_or_pos n with h0 | hpos
    · subst h0
      refine ⟨[], ?_, by simp, by simp [vec_sum]⟩
      simp [drain, reverse_direction, hn]
    · have h1 : 1 ≤ s.index := by omega
      obtain ⟨s1, hrev, hlt, hlist, hvec⟩ := reverse_step_vec s h1 (by omega) horth
      have horth1 := log_orthogonal_lower s s1 horth hlist (by omega)
      obtain ⟨ds, hds, hlen, hsum⟩ :=
        ih s1.index (by omega) s1 f rfl (by omega) horth1 (by omega)
      refine ⟨s1.dir :: ds, ?_, ?_, ?_⟩
      · simp [drain, hrev, hds]
      · simp only [List.length_cons]
        omega
      · have hsplit := vec_sum_take_split s.dir_list s1.index n (by omega)
        rw [hn] at hvec
        rw [hlist] at hsum
        simp only [vec_sum, hsum, hvec, hsplit]
        ext <;> simp only <;> ring

/-- C28: with the grid vectors `vec`, on a well-formed log with cursor `n`
between 1 and 100 whose entries below the cursor are orthogonal moves, one
call of `reverse_direction` returns 0 with a direction whose vector is the
opposite of the sum of the vectors of the entries between the new cursor and
the old cursor; and the replay until the call that returns 1 completes within
`n + 1` calls with directions whose vectors sum to the opposite of the sum of
the `n` logged entries. -/
theorem reversal_conserves_displacement (s : State) (_hwf : s.wf) (h1 : 1 ≤ s.index)
    (h100 : s.index ≤ 100) (horth : log_orthogonal s) :
    (∃ s1 : State, reverse_direction s = some (0, s1) ∧
      vec s1.dir = -vec_sum ((s.dir_list.take s.index).drop s1.index)) ∧
    (∃ ds : List direction, drain (s.index + 1) s = some ds ∧
      vec_sum ds = -vec_sum (s.dir_list.take s.index)) := by
  constructor
  · obtain ⟨s1, hrev, -, -, hvec⟩ := reverse_step_vec s h1 h100 horth
    exact ⟨s1, hrev, by rw [hvec]; rfl⟩
  · obtain ⟨ds, hds, -, hsum⟩ := drain_spec s.index s (s.index + 1) rfl h100 horth (by omega)
    exact ⟨ds, hds, by rw [hsum]; rfl⟩

/-- Witness for C28: the log holding UP, LEFT, DOWN with cursor 3. -/
theorem reversal_conserves_displacement_witness :
    (State.mk NONE (UP :: LEFT :: DOWN :: List.replicate 97 DOWN) 3).wf ∧
    log_orthogonal (State.mk NONE (UP :: LEFT :: DOWN :: List.replicate 97 DOWN) 3) ∧
    (∃ s1 : State,
      reverse_direction (State.mk NONE (UP :: LEFT :: DOWN :: List.replicate 97 DOWN) 3) =
        some (0, s1) ∧
      vec s1.dir = -vec_sum (((UP :: LEFT :: DOWN :: List.replicate 97 DOWN).take 3).drop
        s1.index)) ∧
    (∃ ds : List direction,
      drain (3 + 1) (State.mk NONE (UP :: LEFT :: DOWN :: List.replicate 97 DOWN) 3) = some ds ∧
      vec_sum ds = -vec_sum ((UP :: LEFT :: DOWN :: List.replicate 97 DOWN).take 3)) :=
  ⟨by decide, by decide,
    reversal_conserves_displacement
      (State.mk NONE (UP :: LEFT :: DOWN :: List.replicate 97 DOWN) 3)
      (by decide) (by decide) (by decide) (by decide)⟩

/-- C29: on a well-formed log with cursor `n` between 1 and 100 whose entries
below the cursor are orthogonal moves, `reverse_direction` returns 0 and sets
a cursor below `n`; the entries it reads, at `n - 1` and at `n - 2` (at 0 when
`n = 1`), exist and lie below the cursor; and the replay reaches the call that
returns 1 within `n + 1` calls. -/
theorem reversal_reaches_done (s : State) (_hwf : s.wf) (h1 : 1 ≤ s.index)
    (h100 : s.index ≤ 100) (horth : log_orthogonal s) :
    (∃ s1 : State, reverse_direction s = some (0, s1) ∧ s1.index < s.index) ∧
    (∃ last prior : direction, s.dir_list[s.index - 1]? = some last ∧
      s.dir_list[s.index - 2]? = some prior ∧ s.index - 1 < s.index ∧
      s.index - 2 < s.index ∧ s.index ≤ s.dir_list.length) ∧
    (∃ ds : List direction, drain (s.index + 1) s = some ds ∧
      ds.length + 1 ≤ s.index + 1) := by
  refine ⟨?_, ?_, ?_⟩
  · obtain ⟨s1, hrev, hlt, -, -⟩ := reverse_step_vec s h1 h100 horth
    exact ⟨s1, hrev, hlt⟩
  · obtain ⟨last, prior, hl, hp, -, -, -⟩ := reverse_step_orth s h1 h100 horth
    have hlen : s.index - 1 < s.dir_list.length := by
      by_contra hge
      rw [List.getElem?_eq_none (by omega)] at hl
      exact absurd hl (by simp)
    exact ⟨last, prior, hl, hp, by omega, by omega, by omega⟩
  · obtain ⟨ds, hds, hlen, -⟩ := drain_spec s.index s (s.index + 1) rfl h100 horth (by omega)
    exact ⟨ds, hds, by omega⟩

/-- Witness for C29: the log holding UP, LEFT, DOWN with cursor 3. -/
theorem reversal_reaches_done_witness :
    (State.mk NONE (UP :: LEFT :: DOWN :: List.replicate 97 DOWN) 3).wf ∧
    log_orthogonal (State.mk NONE (UP :: LEFT :: DOWN :: List.replicate 97 DOWN) 3) ∧
    (∃ s1 : State,
      reverse_direction (State.mk NONE (UP :: LEFT :: DOWN :: List.replicate 97 DOWN) 3) =
        some (0, s1) ∧ s1.index < 3) ∧
    (∃ ds : List direction,
      drain (3 + 1) (State.mk NONE (UP :: LEFT :: DOWN :: List.replicate 97 DOWN) 3) = some ds ∧
      ds.length + 1 ≤ 3 + 1) :=
  ⟨by decide, by decide,
    (reversal_reaches_done (State.mk NONE (UP :: LEFT :: DOWN :: List.replicate 97 DOWN) 3)
      (by decide) (by decide) (by decide) (by decide)).1,
    (reversal_reaches_done (State.mk NONE (UP :: LEFT :: DOWN :: List.replicate 97 DOWN) 3)
      (by decide) (by decide) (by decide) (by decide)).2.2⟩

/-! ## Further properties of the gesture detector -/

theorem sensor_step_ignore (atan2 : ℚ → ℚ → ℚ) (sqrt : ℚ → ℚ) (x : Sample) (d : Detector) :
    (sensor_step atan2 sqrt x d).ignore = (arm sqrt x d).ignore := by
  obtain ⟨-, -, hpi, -, -, -, -⟩ := push_init x (arm sqrt x d)
  unfold sensor_step confirm
  split_ifs <;> exact hpi

/-- C23 on the code: a detector armed with `(init_ax, init_ay) = (10, 0)` and one
buffered value receives the opposite swing `(-10, 0, 0)` twice.  The first
sample commits and zeroes the buffer but leaves `ignore` at 1; the second
sample, without any new arming, commits again. -/
theorem confirm_leaves_detector_armed :
    (sensor_step (fun _ _ => 0) (fun q => q / 10) (Sample.mk (-10) 0 0)
        (Detector.mk 1 10 0 (-7 :: List.replicate 9 0) 1 0 0 0 reset_state)).moves = 1 ∧
    (sensor_step (fun _ _ => 0) (fun q => q / 10) (Sample.mk (-10) 0 0)
        (Detector.mk 1 10 0 (-7 :: List.replicate 9 0) 1 0 0 0 reset_state)).z_index = 0 ∧
    (sensor_step (fun _ _ => 0) (fun q => q / 10) (Sample.mk (-10) 0 0)
        (Detector.mk 1 10 0 (-7 :: List.replicate 9 0) 1 0 0 0 reset_state)).z_data = z_zero ∧
    (sensor_step (fun _ _ => 0) (fun q => q / 10) (Sample.mk (-10) 0 0)
        (Detector.mk 1 10 0 (-7 :: List.replicate 9 0) 1 0 0 0 reset_state)).ignore = 1 ∧
    (sensor_step (fun _ _ => 0) (fun q => q / 10) (Sample.mk (-10) 0 0)
      (sensor_step (fun _ _ => 0) (fun q => q / 10) (Sample.mk (-10) 0 0)
        (Detector.mk 1 10 0 (-7 :: List.replicate 9 0) 1 0 0 0 reset_state))).moves = 2 := by
  have h1 : sensor_step (fun _ _ => 0) (fun q => q / 10) (Sample.mk (-10) 0 0)
      (Detector.mk 1 10 0 (-7 :: List.replicate 9 0) 1 0 0 0 reset_state) =
      Detector.mk 1 10 0 z_zero 0 1 1 1
        (determine_direction (fun _ _ => 0) 10 0 reset_state) := by
    norm_num [sensor_step, confirm, push, arm, magnitude, sign_flip, variance]
  rw [h1]
  refine ⟨rfl, rfl, rfl, rfl, ?_⟩
  norm_num [sensor_step, confirm, push, arm, magnitude, sign_flip, variance, z_zero]

theorem reachable_disarmed_buffer (atan2 : ℚ → ℚ → ℚ) (sqrt : ℚ → ℚ) (d : Detector)
    (h : Reachable atan2 sqrt d) : d.ignore = 0 → d.z_index = 0 ∧ d.z_data = z_zero := by
  induction h with
  | start d hi hz hd => exact fun _ => ⟨hz, hd⟩
  | sample d x _ ih =>
    intro h0
    rw [sensor_step_ignore] at h0
    have hd0 : d.ignore = 0 := by
      unfold arm at h0
      split_ifs at h0 with hc
      exact h0
    have hmag : ¬ (magnitude sqrt x > 8 ∧ x.az < -6 ∧ d.ignore = 0) := by
      intro hc
      unfold arm at h0
      rw [if_pos hc] at h0
      simp at h0
    have h1 : arm sqrt x d = d := by
      unfold arm
      rw [if_neg hmag]
    have h2 : push x d = d := by
      unfold push
      rw [if_neg (by simp [hd0])]
    have h3 : sensor_step atan2 sqrt x d = d := by
      unfold sensor_step
      rw [h1, h2]
      unfold confirm
      rw [if_neg]
      rintro ⟨-, a, -, -⟩
      exact a hd0
    rw [h3]
    exact ih hd0
  | timeout d _ _ => exact fun _ => ⟨rfl, rfl⟩
  | other d u s mv g _ ih => exact fun h0 => ih h0

/-- C24: in a reachable detector state, a sample that arms the detector
(`ignore` is 0, the magnitude exceeds 8.0 and `az < -6.0`) leaves `ignore` at 1,
`z_index` at 1 and a buffer whose first entry is the sample's `az` and whose
other nine entries are zero; the stored vector is the sample's `(ax, ay)`. -/
theorem arming_starts_with_fresh_buffer (atan2 : ℚ → ℚ → ℚ) (sqrt : ℚ → ℚ) (d : Detector)
    (x : Sample) (hr : Reachable atan2 sqrt d)
    (harm : magnitude sqrt x > 8 ∧ x.az < -6 ∧ d.ignore = 0) :
    (sensor_step atan2 sqrt x d).ignore = 1 ∧ (sensor_step atan2 sqrt x d).z_index = 1 ∧
      (sensor_step atan2 sqrt x d).z_data = x.az :: List.replicate 9 0 ∧
      (sensor_step atan2 sqrt x d).init_ax = x.ax ∧
      (sensor_step atan2 sqrt x d).init_ay = x.ay := by
  obtain ⟨hz, hd⟩ := reachable_disarmed_buffer atan2 sqrt d hr harm.2.2
  have h1 : arm sqrt x d = { d with init_ax := x.ax, init_ay := x.ay, ignore := 1 } := by
    unfold arm
    rw [if_pos harm]
  have h2 : push x (arm sqrt x d) =
      { d with init_ax := x.ax, init_ay := x.ay, ignore := 1,
               z_data := x.az :: List.replicate 9 0, z_index := 1 } := by
    rw [h1]
    unfold push
    simp [hz, hd, z_zero, List.replicate]
  have h3 : sensor_step atan2 sqrt x d = push x (arm sqrt x d) := by
    unfold sensor_step confirm
    rw [if_neg]
    rintro ⟨-, -, -, hf⟩
    apply sign_flip_self x (push x (arm sqrt x d)) _ _ hf
    · rw [h2]
    · rw [h2]
  rw [h3, h2]
  exact ⟨rfl, rfl, rfl, rfl, rfl⟩

/-- Witness for C24: the disarmed detector with a zeroed buffer receives the
sample `(10, 0, -7)` (the stand-in for `sqrt` agrees with the square root at
the value used). -/
theorem arming_starts_with_fresh_buffer_witness :
    (magnitude (fun q => q / 10) (Sample.mk 10 0 (-7)) > 8 ∧ (Sample.mk 10 0 (-7)).az < -6 ∧
      (Detector.mk 0 0 0 z_zero 0 0 0 0 reset_state).ignore = 0) ∧
    (sensor_step (fun _ _ => 0) (fun q => q / 10) (Sample.mk 10 0 (-7))
      (Detector.mk 0 0 0 z_zero 0 0 0 0 reset_state)).ignore = 1 ∧
    (sensor_step (fun _ _ => 0) (fun q => q / 10) (Sample.mk 10 0 (-7))
      (Detector.mk 0 0 0 z_zero 0 0 0 0 reset_state)).z_index = 1 ∧
    (sensor_step (fun _ _ => 0) (fun q => q / 10) (Sample.mk 10 0 (-7))
      (Detector.mk 0 0 0 z_zero 0 0 0 0 reset_state)).z_data =
        (Sample.mk 10 0 (-7)).az :: List.replicate 9 0 := by
  have harm : magnitude (fun q => q / 10) (Sample.mk 10 0 (-7)) > 8 ∧
      (Sample.mk 10 0 (-7)).az < -6 ∧
      (Detector.mk 0 0 0 z_zero 0 0 0 0 reset_state).ignore = 0 := by
    norm_num [magnitude]
  have h := arming_starts_with_fresh_buffer (fun _ _ => 0) (fun q => q / 10)
    (Detector.mk 0 0 0 z_zero 0 0 0 0 reset_state) (Sample.mk 10 0 (-7))
    (Reachable.start _ rfl rfl rfl) harm
  exact ⟨harm, h.1, h.2.1, h.2.2.1⟩

/-- C25 on the code: an armed detector with a zeroed buffer receives nine
samples with `az` alternating between 0 and 20, then a tenth.  Nine values are
then held and the write index wraps to 0, so `variance(z_data, z_index)` is called
with size 0 and `var` is 0 (below the bound of 50), although the ten values held
in the buffer have population variance 100. -/
theorem variance_after_tenth_push :
    List.foldl (fun d x => sensor_step (fun _ _ => 0) (fun q => q) x d)
        (Detector.mk 1 0 0 z_zero 0 0 0 0 reset_state)
        [Sample.mk 0 0 0, Sample.mk 0 0 20, Sample.mk 0 0 0, Sample.mk 0 0 20, Sample.mk 0 0 0,
         Sample.mk 0 0 20, Sample.mk 0 0 0, Sample.mk 0 0 20, Sample.mk 0 0 0] =
      Detector.mk 1 0 0 [0, 20, 0, 20, 0, 20, 0, 20, 0, 0] 9 0 0 0 reset_state ∧
    (push (Sample.mk 0 0 20) (arm (fun q => q) (Sample.mk 0 0 20)
      (Detector.mk 1 0 0 [0, 20, 0, 20, 0, 20, 0, 20, 0, 0] 9 0 0 0 reset_state))).z_data =
        [0, 20, 0, 20, 0, 20, 0, 20, 0, 20] ∧
    (push (Sample.mk 0 0 20) (arm (fun q => q) (Sample.mk 0 0 20)
      (Detector.mk 1 0 0 [0, 20, 0, 20, 0, 20, 0, 20, 0, 0] 9 0 0 0 reset_state))).z_index = 0 ∧
    sample_var (fun q => q) (Sample.mk 0 0 20)
      (Detector.mk 1 0 0 [0, 20, 0, 20, 0, 20, 0, 20, 0, 0] 9 0 0 0 reset_state) = 0 ∧
    variance [0, 20, 0, 20, 0, 20, 0, 20, 0, 20] 10 = 100 ∧
    sample_var (fun q => q) (Sample.mk 0 0 20)
      (Detector.mk 1 0 0 [0, 20, 0, 20, 0, 20, 0, 20, 0, 0] 8 0 0 0 reset_state) =
        variance [0, 20, 0, 20, 0, 20, 0, 20, 20] 9 := by
  refine ⟨?_, ?_, ?_, ?_, ?_, ?_⟩
  · norm_num [sensor_step, confirm, push, arm, magnitude, sign_flip, variance, z_zero,
      List.replicate]
  · norm_num [push, arm, magnitude]
  · norm_num [push, arm, magnitude]
  · norm_num [sample_var, push, arm, magnitude, variance]
  · norm_num [variance]
  · norm_num [sample_var, push, arm, magnitude, variance]

/-! ## Further properties of the maze -/

/-- Counterexample to C26 as stated: the ball position `(16, 56)` lies inside the
display, yet no cell contains it: of the two cells that share the line
`x = 16`, `(0, 2)` contains `x = 15` but not `x = 16`, and `(1, 2)` contains
`x = 17` but not `x = 16`. -/
theorem grid_line_in_no_cell :
    ((0 < 16 ∧ 16 < 96) ∧ (0 < 56 ∧ 56 < 96)) ∧
    (∀ c ∈ cells, inside 16 56 c.1 c.2 = false) ∧
    inside 15 56 0 2 = true ∧ inside 16 56 0 2 = false ∧
    inside 16 56 1 2 = false ∧ inside 17 56 1 2 = true := by
  decide

/-- C26 amended: the containment test of `handle_labyrinth` is open on each axis.
A ball position inside the display none of whose coordinates is a multiple of
16 is contained in exactly one of the 36 cells; a position with a coordinate
that is a multiple of 16 is contained in none. -/
theorem containment_is_open (x y : Nat) (hx : 0 < x ∧ x < 96) (hy : 0 < y ∧ y < 96) :
    (x % 16 ≠ 0 ∧ y % 16 ≠ 0 → ∃! c : Nat × Nat, c ∈ cells ∧ inside x y c.1 c.2 = true) ∧
    (x % 16 = 0 ∨ y % 16 = 0 → ∀ c ∈ cells, inside x y c.1 c.2 = false) := by
  constructor
  · rintro ⟨h1, h2⟩
    refine ⟨(x / 16, (96 - y) / 16), ⟨?_, ?_⟩, ?_⟩
    · rw [mem_cells]
      omega
    · rw [inside_iff]
      simp only
      omega
    · rintro ⟨i, j⟩ ⟨-, hin⟩
      rw [inside_iff] at hin
      simp only at hin
      simp only [Prod.mk.injEq]
      omega
  · intro h c _
    cases hin : inside x y c.1 c.2 with
    | false => rfl
    | true =>
      rw [inside_iff] at hin
      omega

/-- Witness for C26 amended: the spawn point `(8, 56)`, and the position
`(16, 56)` on a grid line. -/
theorem containment_is_open_witness :
    ((0 < 8 ∧ 8 < 96) ∧ (0 < 56 ∧ 56 < 96) ∧ (8 % 16 ≠ 0 ∧ 56 % 16 ≠ 0)) ∧
    (∃! c : Nat × Nat, c ∈ cells ∧ inside 8 56 c.1 c.2 = true) ∧
    (16 % 16 = 0 ∨ 56 % 16 = 0) ∧
    (∀ c ∈ cells, inside 16 56 c.1 c.2 = false) :=
  ⟨by decide,
    (containment_is_open 8 56 (by decide) (by decide)).1 (by decide),
    by decide,
    (containment_is_open 16 56 (by decide) (by decide)).2 (by decide)⟩

/-- C30: the spawn point `(8, 56)` lies strictly inside the start cell `(0, 2)`
under the containment test; after every completed generation that cell is
accessible; and a step of `handle_labyrinth` with the ball at spawn and an
acceleration of at most 0.5 on each axis does not return 0 (lost). -/
theorem spawn_is_safe (F : FloatOps) (rs : List Nat) (m m1 : Maze) (hc : m.clear ≠ 0)
    (h : draw_labyrinth rs m = some m1) (ax ay : ℚ) (hax : |ax| ≤ 1 / 2)
    (hay : |ay| ≤ 1 / 2) :
    inside 8 56 0 2 = true ∧
    (16 * 0 < 8 ∧ 8 < 16 * (0 + 1) ∧ 96 - 16 * (2 + 1) < 56 ∧ 56 < 96 - 16 * 2) ∧
    accessible m1 (0, 2) ∧
    (handle_labyrinth F ax ay { m1 with ball_x := 8, ball_y := 56 }).1 ≠ 0 := by
  obtain ⟨pos, -, -, -, -, hacc, -, -, -, -⟩ := draw_labyrinth_spec rs m m1 hc h
  have hstart : accessible m1 (0, 2) := (hacc _).mpr (List.mem_cons_self _ _)
  refine ⟨by decide, by decide, hstart, ?_⟩
  have hmove := move_ball_small F ax ay { m1 with ball_x := 8, ball_y := 56 } hax hay
  have hw : wall_hit { m1 with ball_x := 8, ball_y := 56 } ≠ true := by
    intro hw
    obtain ⟨i, j, hi, hj, hb, -, hin⟩ := (wall_hit_iff _).mp hw
    rw [inside_iff] at hin
    simp only at hin hb
    have hi0 : i = 0 := by omega
    have hj2 : j = 2 := by omega
    subst hi0
    subst hj2
    exact hstart.2.2 hb
  have hwf : wall_hit { m1 with ball_x := 8, ball_y := 56 } = false := by
    simpa using hw
  simp only [handle_labyrinth, hmove, hwf, Bool.false_eq_true, if_false]
  split_ifs <;> simp

/-- Witness for C30: the maze generated from the draws up, right, down, down and
then up and down in turn, with the ball at spawn and no acceleration. -/
theorem spawn_is_safe_witness :
    maze_start.clear ≠ 0 ∧
    draw_labyrinth ([0, 1, 2, 2] ++ (List.replicate 13 [0, 2]).flatten) maze_start =
      some (Maze.mk 8 56 1 1 0
        [0, 0, 1, 1, 0, 0, 0, 1, 1, 1, 0, 0, 0, 0, 0, 0, 0, 0,
         0, 0, 0, 0, 0, 0, 0, 0, 0, 0, 0, 0, 0, 0, 0, 0, 0, 0]) ∧
    (|(0 : ℚ)| ≤ 1 / 2) ∧
    (handle_labyrinth exact_ops 0 0 { (Maze.mk 8 56 1 1 0
        [0, 0, 1, 1, 0, 0, 0, 1, 1, 1, 0, 0, 0, 0, 0, 0, 0, 0,
         0, 0, 0, 0, 0, 0, 0, 0, 0, 0, 0, 0, 0, 0, 0, 0, 0, 0]) with
        ball_x := 8, ball_y := 56 }).1 ≠ 0 :=
  ⟨by decide, by decide, by norm_num,
    (spawn_is_safe exact_ops ([0, 1, 2, 2] ++ (List.replicate 13 [0, 2]).flatten) maze_start
      (Maze.mk 8 56 1 1 0
        [0, 0, 1, 1, 0, 0, 0, 1, 1, 1, 0, 0, 0, 0, 0, 0, 0, 0,
         0, 0, 0, 0, 0, 0, 0, 0, 0, 0, 0, 0, 0, 0, 0, 0, 0, 0])
      (by decide) (by decide) 0 0 (by norm_num) (by norm_num)).2.2.2⟩

end Tron
